import Mathlib

/-!
Verification of the docparsing layout-aggregation and document-reconstruction
pipeline (backend/vendor/docparsing).  All definitions below are shallow
embeddings of the Python source: coordinates become rationals, pydantic value
equality becomes structural equality on the embedded records, exceptions become
`Except`, and in-place mutation of element lists becomes explicit state passing.
Each embedded function keeps the name of the Python function it models.
-/

set_option maxRecDepth 10000

namespace DocParsing

/-- Axis-aligned rectangle, the data of `schemas/elements.py` class `Bbox`
(fields `x0 x1 y0 y1`, normalized page coordinates). -/
structure Bb where
  x0 : ℚ
  y0 : ℚ
  x1 : ℚ
  y1 : ℚ
deriving DecidableEq, Repr

/-- `Bbox.area`: `(x1 - x0) * (y1 - y0)`. -/
def Bb.area (b : Bb) : ℚ := (b.x1 - b.x0) * (b.y1 - b.y0)

/-- `utils.calculate_intersection_area`. -/
def calculate_intersection_area (elem1 elem2 : Bb) : ℚ :=
  if elem1.x0 ≥ elem2.x1 ∨ elem2.x0 ≥ elem1.x1 ∨ elem1.y0 ≥ elem2.y1 ∨ elem2.y0 ≥ elem1.y1 then
    0
  else
    let x0 := max elem1.x0 elem2.x0
    let y0 := max elem1.y0 elem2.y0
    let x1 := min elem1.x1 elem2.x1
    let y1 := min elem1.y1 elem2.y1
    max 0 ((x1 - x0) * (y1 - y0))

/-- `utils.is_bbox_within`.  The Python function raises `ValueError` when
`overlap_threshold < 0`; the raise is modeled by `Except.error`. -/
def is_bbox_within (elem1 elem2 : Bb) (overlap_threshold : ℚ) : Except String Bool :=
  if overlap_threshold < 0 then
    .error "overlap_threshold must be greater than 0"
  else if elem1.area > 0 then
    if calculate_intersection_area elem1 elem2 / elem1.area ≥ overlap_threshold then
      .ok true
    else
      .ok false
  else
    .ok false

/-- Exception-free form of `is_bbox_within`, used at internal call sites where
the Python code always passes a non-negative threshold (0.25, 0.5, 0.8, ...),
so the `ValueError` branch is unreachable there (see `is_bbox_within_ok`). -/
def is_bbox_withinB (elem1 elem2 : Bb) (overlap_threshold : ℚ) : Bool :=
  decide (0 < elem1.area ∧
    calculate_intersection_area elem1 elem2 / elem1.area ≥ overlap_threshold)

/-- For non-negative thresholds the two forms agree and no exception occurs. -/
theorem is_bbox_within_ok (elem1 elem2 : Bb) (t : ℚ) (ht : 0 ≤ t) :
    is_bbox_within elem1 elem2 t = .ok (is_bbox_withinB elem1 elem2 t) := by
  unfold is_bbox_within is_bbox_withinB
  rw [if_neg (by exact not_lt.mpr ht)]
  by_cases h0 : elem1.area > 0
  · rw [if_pos h0]
    by_cases h1 : calculate_intersection_area elem1 elem2 / elem1.area ≥ t
    · simp [h0, h1]
    · simp [h0, h1]
  · rw [if_neg h0]
    simp [h0]

/-- The unit square, a convenient concrete bounding box. -/
def unitBb : Bb := ⟨0, 0, 1, 1⟩

/-- The clamping step of `Bbox.validate_clamped` for one coordinate:
values strictly between 1 and 1.01 become 1, values strictly between
-0.01 and 0 become 0 (`epsilon = 1e-2`). -/
def clampCoord (v : ℚ) : ℚ :=
  if 1 < v ∧ v < 1 + 1/100 then 1
  else if -(1/100) < v ∧ v < 0 then 0
  else v

/-- `Bbox.create`: pydantic runs `validate_clamped` (clamping), then the
field constraints `0 ≤ coord ≤ 1` (`ClampedFloat`), then `validate_ccc`
(`x0 < x1`, `y0 < y1`).  `create` catches `CoordinatesError` and the
`less_than_equal` / `greater_than_equal` validation errors and returns
`None` for them, modeled as `none`.  Argument order follows the field
declaration order of the Python class (`x0, x1, y0, y1`). -/
def Bb.create (x0 x1 y0 y1 : ℚ) : Option Bb :=
  if clampCoord x0 < 0 ∨ 1 < clampCoord x0 ∨ clampCoord x1 < 0 ∨ 1 < clampCoord x1 ∨
      clampCoord y0 < 0 ∨ 1 < clampCoord y0 ∨ clampCoord y1 < 0 ∨ 1 < clampCoord y1 then
    none
  else if ¬ clampCoord x0 < clampCoord x1 then
    none
  else if ¬ clampCoord y0 < clampCoord y1 then
    none
  else
    some ⟨clampCoord x0, clampCoord y0, clampCoord x1, clampCoord y1⟩

theorem clampCoord_mono {a b : ℚ} (h : a ≤ b) : clampCoord a ≤ clampCoord b := by
  unfold clampCoord
  split_ifs <;> simp only [not_and_or, not_lt] at * <;> (try casesm* _ ∨ _) <;> linarith

/-- C8: a degenerate coordinate pair (`x0 ≥ x1` or `y0 ≥ y1`) makes
`Bbox.create` return `none` (absent) without raising, and every successfully
constructed `Bbox` satisfies `x0 < x1`, `y0 < y1` and has positive area. -/
theorem bbox_create_never_degenerate (x0 x1 y0 y1 : ℚ) :
    ((x1 ≤ x0 ∨ y1 ≤ y0) → Bb.create x0 x1 y0 y1 = none) ∧
    (∀ b : Bb, Bb.create x0 x1 y0 y1 = some b →
      b.x0 < b.x1 ∧ b.y0 < b.y1 ∧ 0 < b.area) := by
  constructor
  · intro hdeg
    unfold Bb.create
    split_ifs with h1 h2 h3 <;>
      first
        | rfl
        | (exfalso
           rcases hdeg with hx | hy
           · exact absurd (lt_of_le_of_lt (clampCoord_mono hx) h2) (lt_irrefl _)
           · exact absurd (lt_of_le_of_lt (clampCoord_mono hy) h3) (lt_irrefl _))
  · intro b hb
    unfold Bb.create at hb
    split_ifs at hb with h1 h2 h3
    cases hb
    have harea : 0 < (clampCoord x1 - clampCoord x0) * (clampCoord y1 - clampCoord y0) :=
      mul_pos (sub_pos.mpr h2) (sub_pos.mpr h3)
    exact ⟨h2, h3, harea⟩

/-- Witness for `bbox_create_never_degenerate`, at the equal-coordinate input
`x0 = x1 = 1/2` and at a valid input. -/
theorem bbox_create_never_degenerate_witness :
    Bb.create (1/2) (1/2) 0 1 = none ∧
    (∀ b : Bb, Bb.create 0 1 0 1 = some b → b.x0 < b.x1 ∧ b.y0 < b.y1 ∧ 0 < b.area) :=
  ⟨(bbox_create_never_degenerate (1/2) (1/2) 0 1).1 (Or.inl (le_refl _)),
   (bbox_create_never_degenerate 0 1 0 1).2⟩

theorem clampCoord_id_of_out {v : ℚ} (h : 1 + 1/100 ≤ v ∨ v ≤ -(1/100)) :
    clampCoord v = v := by
  have h1 : ¬ (1 < v ∧ v < 1 + 1/100) := by
    rintro ⟨ha, hb⟩
    rcases h with h | h <;> linarith
  have h2 : ¬ (-(1/100) < v ∧ v < 0) := by
    rintro ⟨ha, hb⟩
    rcases h with h | h <;> linarith
  unfold clampCoord
  rw [if_neg h1, if_neg h2]

theorem clampCoord_out {v : ℚ} (h : 1 + 1/100 ≤ v ∨ v ≤ -(1/100)) :
    clampCoord v < 0 ∨ 1 < clampCoord v := by
  rw [clampCoord_id_of_out h]
  rcases h with h | h
  · right; linarith
  · left; linarith

/-- C10: near-miss coordinates are silently clamped — a coordinate strictly
between 1 and 1.01 is stored as exactly 1 and a coordinate strictly between
-0.01 and 0 is stored as exactly 0 (every constructed box stores the clamped
value), while a coordinate at or beyond the tolerances (`≥ 1.01` or
`≤ -0.01`) in any position makes `Bbox.create` return `none` rather than
raise. -/
theorem bbox_create_clamps (x0 x1 y0 y1 v : ℚ) :
    ((1 < v ∧ v < 1 + 1/100) → clampCoord v = 1) ∧
    ((-(1/100) < v ∧ v < 0) → clampCoord v = 0) ∧
    ((1 + 1/100 ≤ v ∨ v ≤ -(1/100)) →
      Bb.create v x1 y0 y1 = none ∧ Bb.create x0 v y0 y1 = none ∧
      Bb.create x0 x1 v y1 = none ∧ Bb.create x0 x1 y0 v = none) ∧
    (∀ b : Bb, Bb.create x0 x1 y0 y1 = some b →
      b.x0 = clampCoord x0 ∧ b.x1 = clampCoord x1 ∧
      b.y0 = clampCoord y0 ∧ b.y1 = clampCoord y1) := by
  refine ⟨?_, ?_, ?_, ?_⟩
  · intro h
    unfold clampCoord
    rw [if_pos h]
  · intro h
    unfold clampCoord
    have hno : ¬ (1 < v ∧ v < 1 + 1/100) := by rintro ⟨h1, _⟩; linarith [h.2]
    rw [if_neg hno, if_pos h]
  · intro h
    have hout := clampCoord_out h
    refine ⟨?_, ?_, ?_, ?_⟩
    · unfold Bb.create
      rcases hout with h1 | h1
      · rw [if_pos (Or.inl h1)]
      · rw [if_pos (Or.inr (Or.inl h1))]
    · unfold Bb.create
      rcases hout with h1 | h1
      · rw [if_pos (Or.inr (Or.inr (Or.inl h1)))]
      · rw [if_pos (Or.inr (Or.inr (Or.inr (Or.inl h1))))]
    · unfold Bb.create
      rcases hout with h1 | h1
      · rw [if_pos (Or.inr (Or.inr (Or.inr (Or.inr (Or.inl h1)))))]
      · rw [if_pos (Or.inr (Or.inr (Or.inr (Or.inr (Or.inr (Or.inl h1))))))]
    · unfold Bb.create
      rcases hout with h1 | h1
      · rw [if_pos (Or.inr (Or.inr (Or.inr (Or.inr (Or.inr (Or.inr (Or.inl h1)))))))]
      · rw [if_pos (Or.inr (Or.inr (Or.inr (Or.inr (Or.inr (Or.inr (Or.inr h1)))))))]
  · intro b hb
    unfold Bb.create at hb
    split_ifs at hb
    cases hb
    exact ⟨rfl, rfl, rfl, rfl⟩

/-- Witness for `bbox_create_clamps`: the input `x1 = 1.005` is strictly
between 1 and 1.01 and the constructed box stores `x1 = 1`; the input
`v = 1.01` makes creation fail. -/
theorem bbox_create_clamps_witness :
    (∀ b : Bb, Bb.create 0 (1 + 1/200) 0 1 = some b → b.x1 = 1) ∧
    Bb.create 0 0 0 (1 + 1/100) = none := by
  constructor
  · intro b hb
    have h := (bbox_create_clamps 0 (1 + 1/200) 0 1 (1 + 1/200)).2.2.2 b hb
    have hc := (bbox_create_clamps 0 (1 + 1/200) 0 1 (1 + 1/200)).1 (by norm_num)
    rw [h.2.1, hc]
  · exact ((bbox_create_clamps 0 0 0 1 (1 + 1/100)).2.2.1 (Or.inl (le_refl _))).2.2.2

/-- C7 (code bug record): with `overlap_threshold = 0` — a threshold that is
not greater than 0 — `is_bbox_within` does not raise: it returns `True` for
any box of positive area, although the code's own error message states the
threshold "must be greater than 0" (the guard tests `< 0` instead of `≤ 0`). -/
theorem is_bbox_within_zero_threshold_no_error :
    is_bbox_within unitBb unitBb 0 = .ok true := by
  norm_num [is_bbox_within, unitBb, Bb.area, calculate_intersection_area]

/-! ### Table cells and `TableContent.get_spanning_cells` -/

/-- `schemas/elements.py` class `Cell`: a table cell with its bbox, its
detected label (e.g. `"spanning_cell"`) and page.  Python compares cells by
pydantic value equality; a spanning cell is the same object repeated, hence
equal at all its grid positions. -/
structure TCell where
  label : Option String
  x0 : ℚ
  y0 : ℚ
  x1 : ℚ
  y1 : ℚ
  page : Option ℕ
deriving DecidableEq, Repr

/-- `cell.label in ["spanning_cell", "spanning_header"]`. -/
def isSpanningLabel (c : TCell) : Bool :=
  decide (c.label = some "spanning_cell" ∨ c.label = some "spanning_header")

/-- The loop of `TableContent.get_spanning_cells`, iterating over `todo`
(the remaining cells) with `pos` the current index into `cells`.  The Python
dict `spanning_cells` is modeled as an insertion-ordered association list of
`(pos, rowspan, colspan)` triples (its keys are pairwise distinct positions). -/
def spanLoop (cells : List TCell) : ℕ → List TCell → List TCell →
    List (ℕ × ℕ × ℕ) → List ℕ → List (ℕ × ℕ × ℕ) × List ℕ
  | _, [], _, spanning, skip => (spanning, skip)
  | pos, cell :: rest, processed, spanning, skip =>
    let skip1 := if cell ∈ processed then skip ++ [pos] else skip
    if isSpanningLabel cell ∧ cell ∉ processed then
      let colspan := 1 + ((cells.drop (pos + 1)).takeWhile (fun x => decide (x = cell))).length
      let nb := cells.countP (fun x => decide (x = cell))
      let rowspan := if nb % colspan = 0 then nb / colspan else 1
      spanLoop cells (pos + 1) rest (processed ++ [cell])
        (spanning ++ [(pos, rowspan, colspan)]) skip1
    else
      spanLoop cells (pos + 1) rest processed spanning skip1

/-- `TableContent.get_spanning_cells` (returns `({}, [])` when `cells` is
`None`). -/
def get_spanning_cells (cells : Option (List TCell)) : List (ℕ × ℕ × ℕ) × List ℕ :=
  match cells with
  | none => ([], [])
  | some cs => spanLoop cs 0 cs [] [] []

theorem getFromDrop {α : Type} (l : List α) (i : ℕ) (a : α) (t : List α)
    (h : l.drop i = a :: t) : l[i]? = some a := by
  have h0 := List.getElem?_drop l i 0
  rw [h] at h0
  simpa using h0.symm

theorem dropSucc {α : Type} (l : List α) (i : ℕ) (a : α) (t : List α)
    (h : l.drop i = a :: t) : l.drop (i + 1) = t := by
  rw [← List.tail_drop, h]
  rfl

/-- One unfolding step of `spanLoop`, with the three state updates expressed
as conditionals. -/
theorem spanLoop_cons (cells : List TCell) (pos : ℕ) (a : TCell)
    (t processed : List TCell) (spanning : List (ℕ × ℕ × ℕ)) (skip : List ℕ) :
    spanLoop cells pos (a :: t) processed spanning skip
      = spanLoop cells (pos + 1) t
          (if isSpanningLabel a ∧ a ∉ processed then processed ++ [a] else processed)
          (if isSpanningLabel a ∧ a ∉ processed then
            spanning ++ [(pos,
              if (cells.countP fun x => decide (x = a)) %
                  (1 + ((cells.drop (pos + 1)).takeWhile fun x => decide (x = a)).length) = 0
              then (cells.countP fun x => decide (x = a)) /
                  (1 + ((cells.drop (pos + 1)).takeWhile fun x => decide (x = a)).length)
              else 1,
              1 + ((cells.drop (pos + 1)).takeWhile fun x => decide (x = a)).length)]
           else spanning)
          (if a ∈ processed then skip ++ [pos] else skip) := by
  by_cases h : isSpanningLabel a ∧ a ∉ processed
  · simp only [spanLoop, if_pos h]
  · simp only [spanLoop, if_neg h]

/-- Processing a segment of cells none of which equals `c` neither adds a
`spanning_cells` entry at a position holding `c` nor a skip index at a
position holding `c`, and does not change whether `c` has been processed. -/
theorem spanLoop_seg (c : TCell) (cells : List TCell) (seg : List TCell) :
    (∀ a ∈ seg, a ≠ c) →
    ∀ (rest : List TCell) (pos : ℕ) (processed : List TCell)
      (spanning : List (ℕ × ℕ × ℕ)) (skip : List ℕ),
    cells.drop pos = seg ++ rest →
    ∃ processed1 spanning1 skip1,
      spanLoop cells pos (seg ++ rest) processed spanning skip
        = spanLoop cells (pos + seg.length) rest processed1 spanning1 skip1
      ∧ (c ∈ processed1 ↔ c ∈ processed)
      ∧ spanning1.filter (fun e => decide (cells[e.1]? = some c))
          = spanning.filter (fun e => decide (cells[e.1]? = some c))
      ∧ skip1.filter (fun i => decide (cells[i]? = some c))
          = skip.filter (fun i => decide (cells[i]? = some c)) := by
  induction seg with
  | nil =>
    intro _ rest pos processed spanning skip _
    exact ⟨processed, spanning, skip, by simp, Iff.rfl, rfl, rfl⟩
  | cons a seg ih =>
    intro hfree rest pos processed spanning skip hdrop
    have ha : a ≠ c := hfree a (by simp)
    rw [List.cons_append] at hdrop
    have hga : cells[pos]? = some a := getFromDrop _ _ _ _ hdrop
    have hdrop1 : cells.drop (pos + 1) = seg ++ rest := dropSucc _ _ _ _ hdrop
    obtain ⟨p1, s1, k1, heq, hmem, hspan, hskip⟩ :=
      ih (fun x hx => hfree x (by simp [hx])) rest (pos + 1) _ _ _ hdrop1
    refine ⟨p1, s1, k1, ?_, ?_, ?_, ?_⟩
    · rw [List.cons_append, spanLoop_cons, heq]
      have harith : pos + 1 + seg.length = pos + (a :: seg).length := by
        simp only [List.length_cons]
        omega
      rw [harith]
    · rw [hmem]
      by_cases h : isSpanningLabel a ∧ a ∉ processed
      · rw [if_pos h]
        simp [ha.symm]
      · rw [if_neg h]
    · rw [hspan]
      by_cases h : isSpanningLabel a ∧ a ∉ processed
      · rw [if_pos h]
        have hfalse : (decide (cells[pos]? = some c)) = false := by
          simp [hga, ha]
        simp [List.filter_append, hfalse]
      · rw [if_neg h]
    · rw [hskip]
      by_cases h : a ∈ processed
      · rw [if_pos h]
        have hfalse : (decide (cells[pos]? = some c)) = false := by
          simp [hga, ha]
        simp [List.filter_append, hfalse]
      · rw [if_neg h]

/-- C9: for a cells list holding a spanning cell `c` repeated over a
2-row-by-2-column block (the same cell at two consecutive positions of one
row and at the two corresponding positions of the next row, inside a wider
grid: `pre ++ [c, c] ++ mid ++ [c, c] ++ post` with `c` nowhere else and
`mid` nonempty), `get_spanning_cells` returns exactly one entry for that
cell, keyed at its first position `pre.length` with
`(rowspan, colspan) = (2, 2)`, and exactly the three skip indices for the
other positions of the block. -/
theorem get_spanning_cells_2x2_block (pre mid post : List TCell) (c : TCell)
    (hlabel : isSpanningLabel c = true)
    (hpre : ∀ a ∈ pre, a ≠ c) (hmid : ∀ a ∈ mid, a ≠ c) (hpost : ∀ a ∈ post, a ≠ c)
    (hne : mid ≠ []) :
    ((get_spanning_cells (some (pre ++ c :: c :: (mid ++ c :: c :: post)))).1.filter
        (fun e => decide ((pre ++ c :: c :: (mid ++ c :: c :: post))[e.1]? = some c)))
      = [(pre.length, 2, 2)] ∧
    ((get_spanning_cells (some (pre ++ c :: c :: (mid ++ c :: c :: post)))).2.filter
        (fun i => decide ((pre ++ c :: c :: (mid ++ c :: c :: post))[i]? = some c)))
      = [pre.length + 1, pre.length + 2 + mid.length, pre.length + 2 + mid.length + 1] := by
  obtain ⟨m, mid2, rfl⟩ : ∃ m mid2, mid = m :: mid2 := by
    cases mid with
    | nil => exact absurd rfl hne
    | cons m mid2 => exact ⟨m, mid2, rfl⟩
  have hm : m ≠ c := hmid m (by simp)
  -- drop and element facts along the block
  have hd1 : (pre ++ c :: c :: ((m :: mid2) ++ c :: c :: post)).drop pre.length
      = c :: (c :: ((m :: mid2) ++ c :: c :: post)) := List.drop_left pre _
  have hd2 : (pre ++ c :: c :: ((m :: mid2) ++ c :: c :: post)).drop (pre.length + 1)
      = c :: ((m :: mid2) ++ c :: c :: post) := dropSucc _ _ _ _ hd1
  have hd3 : (pre ++ c :: c :: ((m :: mid2) ++ c :: c :: post)).drop (pre.length + 2)
      = (m :: mid2) ++ c :: c :: post := by
    have h := dropSucc _ _ _ _ hd2
    rw [show pre.length + 1 + 1 = pre.length + 2 by omega] at h
    exact h
  have hd4 : (pre ++ c :: c :: ((m :: mid2) ++ c :: c :: post)).drop
      (pre.length + 2 + (m :: mid2).length) = c :: (c :: post) := by
    have h := congrArg (List.drop (m :: mid2).length) hd3
    rw [List.drop_drop, List.drop_left] at h
    exact h
  have hd5 : (pre ++ c :: c :: ((m :: mid2) ++ c :: c :: post)).drop
      (pre.length + 2 + (m :: mid2).length + 1) = c :: post := dropSucc _ _ _ _ hd4
  have hd6 : (pre ++ c :: c :: ((m :: mid2) ++ c :: c :: post)).drop
      (pre.length + 2 + (m :: mid2).length + 1 + 1) = post := dropSucc _ _ _ _ hd5
  have cp : (pre ++ c :: c :: ((m :: mid2) ++ c :: c :: post))[pre.length]? = some c :=
    getFromDrop _ _ _ _ hd1
  have cp1 : (pre ++ c :: c :: ((m :: mid2) ++ c :: c :: post))[pre.length + 1]? = some c :=
    getFromDrop _ _ _ _ hd2
  have cq : (pre ++ c :: c :: ((m :: mid2) ++ c :: c ::
      post))[pre.length + 2 + (m :: mid2).length]? = some c := getFromDrop _ _ _ _ hd4
  have cq1 : (pre ++ c :: c :: ((m :: mid2) ++ c :: c ::
      post))[pre.length + 2 + (m :: mid2).length + 1]? = some c := getFromDrop _ _ _ _ hd5
  -- count of c across the whole cells list is 4
  have hpre0 : pre.countP (fun x => decide (x = c)) = 0 :=
    List.countP_eq_zero.mpr (by intro a hx; simpa using hpre a hx)
  have hmid2 : mid2.countP (fun x => decide (x = c)) = 0 :=
    List.countP_eq_zero.mpr (by intro a hx; simpa using hmid a (by simp [hx]))
  have hpost0 : post.countP (fun x => decide (x = c)) = 0 :=
    List.countP_eq_zero.mpr (by intro a hx; simpa using hpost a hx)
  have hnb : (pre ++ c :: c :: ((m :: mid2) ++ c :: c :: post)).countP
      (fun x => decide (x = c)) = 4 := by
    simp only [List.countP_append, List.countP_cons, hpre0, hmid2, hpost0,
      decide_eq_true_eq]
    simp [hm]
  -- colspan scan after the first position of the block sees exactly one more c
  have htw : (((pre ++ c :: c :: ((m :: mid2) ++ c :: c :: post)).drop
      (pre.length + 1)).takeWhile (fun x => decide (x = c))).length = 1 := by
    rw [hd2]
    simp [List.takeWhile_cons, hm]
  -- run the loop: prefix segment
  obtain ⟨pr0, sp0, sk0, heq0, hmem0, hspan0, hskip0⟩ :=
    spanLoop_seg c (pre ++ c :: c :: ((m :: mid2) ++ c :: c :: post)) pre hpre
      (c :: c :: ((m :: mid2) ++ c :: c :: post)) 0 [] [] [] (by simp)
  have hnotc0 : c ∉ pr0 := by
    intro h
    exact absurd (hmem0.mp h) (by simp)
  rw [Nat.zero_add] at heq0
  -- first block cell: spanning entry (2, 2) recorded
  have hstep1 : spanLoop (pre ++ c :: c :: ((m :: mid2) ++ c :: c :: post)) pre.length
      (c :: (c :: ((m :: mid2) ++ c :: c :: post))) pr0 sp0 sk0
      = spanLoop (pre ++ c :: c :: ((m :: mid2) ++ c :: c :: post)) (pre.length + 1)
          (c :: ((m :: mid2) ++ c :: c :: post)) (pr0 ++ [c]) (sp0 ++ [(pre.length, 2, 2)]) sk0 := by
    rw [spanLoop_cons, if_pos ⟨hlabel, hnotc0⟩, if_pos ⟨hlabel, hnotc0⟩,
      if_neg hnotc0, hnb, htw]
    norm_num
  -- second block cell: already processed, skip index recorded
  have hstep2 : spanLoop (pre ++ c :: c :: ((m :: mid2) ++ c :: c :: post)) (pre.length + 1)
      (c :: ((m :: mid2) ++ c :: c :: post)) (pr0 ++ [c]) (sp0 ++ [(pre.length, 2, 2)]) sk0
      = spanLoop (pre ++ c :: c :: ((m :: mid2) ++ c :: c :: post)) (pre.length + 2)
          ((m :: mid2) ++ c :: c :: post) (pr0 ++ [c]) (sp0 ++ [(pre.length, 2, 2)])
          (sk0 ++ [pre.length + 1]) := by
    have hin : c ∈ pr0 ++ [c] := by simp
    rw [spanLoop_cons, if_neg (fun h => h.2 hin), if_neg (fun h => h.2 hin), if_pos hin,
      show pre.length + 1 + 1 = pre.length + 2 by omega]
  -- middle segment
  obtain ⟨pr1, sp1, sk1, heq1, hmem1, hspan1, hskip1⟩ :=
    spanLoop_seg c (pre ++ c :: c :: ((m :: mid2) ++ c :: c :: post)) (m :: mid2) hmid
      (c :: c :: post) (pre.length + 2) (pr0 ++ [c]) (sp0 ++ [(pre.length, 2, 2)])
      (sk0 ++ [pre.length + 1]) hd3
  have hinc1 : c ∈ pr1 := hmem1.mpr (by simp)
  -- third and fourth block cells: skip indices recorded
  have hstep3 : spanLoop (pre ++ c :: c :: ((m :: mid2) ++ c :: c :: post))
      (pre.length + 2 + (m :: mid2).length) (c :: (c :: post)) pr1 sp1 sk1
      = spanLoop (pre ++ c :: c :: ((m :: mid2) ++ c :: c :: post))
          (pre.length + 2 + (m :: mid2).length + 1) (c :: post) pr1 sp1
          (sk1 ++ [pre.length + 2 + (m :: mid2).length]) := by
    rw [spanLoop_cons, if_neg (fun h => h.2 hinc1), if_neg (fun h => h.2 hinc1),
      if_pos hinc1]
  have hstep4 : spanLoop (pre ++ c :: c :: ((m :: mid2) ++ c :: c :: post))
      (pre.length + 2 + (m :: mid2).length + 1) (c :: post) pr1 sp1
      (sk1 ++ [pre.length + 2 + (m :: mid2).length])
      = spanLoop (pre ++ c :: c :: ((m :: mid2) ++ c :: c :: post))
          (pre.length + 2 + (m :: mid2).length + 1 + 1) post pr1 sp1
          ((sk1 ++ [pre.length + 2 + (m :: mid2).length])
            ++ [pre.length + 2 + (m :: mid2).length + 1]) := by
    rw [spanLoop_cons, if_neg (fun h => h.2 hinc1), if_neg (fun h => h.2 hinc1),
      if_pos hinc1]
  -- tail segment
  obtain ⟨pr2, sp2, sk2, heq2, hmem2, hspan2, hskip2⟩ :=
    spanLoop_seg c (pre ++ c :: c :: ((m :: mid2) ++ c :: c :: post)) post hpost
      [] (pre.length + 2 + (m :: mid2).length + 1 + 1) pr1 sp1
      ((sk1 ++ [pre.length + 2 + (m :: mid2).length])
        ++ [pre.length + 2 + (m :: mid2).length + 1]) (by rw [List.append_nil]; exact hd6)
  rw [List.append_nil] at heq2
  -- assemble the full run
  have hrun : get_spanning_cells (some (pre ++ c :: c :: ((m :: mid2) ++ c :: c :: post)))
      = (sp2, sk2) := by
    show spanLoop (pre ++ c :: c :: ((m :: mid2) ++ c :: c :: post)) 0
        (pre ++ c :: c :: ((m :: mid2) ++ c :: c :: post)) [] [] [] = (sp2, sk2)
    rw [heq0, hstep1, hstep2, heq1, hstep3, hstep4, heq2]
    simp [spanLoop]
  rw [hrun]
  constructor
  · rw [hspan2, hspan1, List.filter_append, hspan0, List.filter_nil, List.nil_append]
    simp only [List.filter_cons, List.filter_nil, cp]
    simp
  · rw [hskip2, List.filter_append, List.filter_append, hskip1, List.filter_append,
      hskip0, List.filter_nil, List.nil_append]
    simp only [List.filter_cons, List.filter_nil, cp1, cq, cq1]
    simp

/-- A concrete spanning cell (page 0, label `"spanning_cell"`). -/
def spanCell : TCell := ⟨some "spanning_cell", 0, 0, 1, 1, some 0⟩

/-- A concrete ordinary cell (no label). -/
def plainCell : TCell := ⟨none, 0, 0, 1, 1, some 0⟩

/-- Witness for `get_spanning_cells_2x2_block`: a 3-wide grid whose first two
rows hold the same spanning cell at columns 0 and 1 yields the single entry
`(0, (2, 2))` and the skip indices `[1, 3, 4]`. -/
theorem get_spanning_cells_2x2_block_witness :
    ((get_spanning_cells (some ([] ++ spanCell :: spanCell :: ([plainCell] ++ spanCell ::
        spanCell :: [plainCell, plainCell, plainCell, plainCell])))).1.filter
        (fun e => decide (([] ++ spanCell :: spanCell :: ([plainCell] ++ spanCell ::
          spanCell :: [plainCell, plainCell, plainCell, plainCell]))[e.1]? = some spanCell)))
      = [(0, 2, 2)] ∧
    ((get_spanning_cells (some ([] ++ spanCell :: spanCell :: ([plainCell] ++ spanCell ::
        spanCell :: [plainCell, plainCell, plainCell, plainCell])))).2.filter
        (fun i => decide (([] ++ spanCell :: spanCell :: ([plainCell] ++ spanCell ::
          spanCell :: [plainCell, plainCell, plainCell, plainCell]))[i]? = some spanCell)))
      = [1, 3, 4] := by
  have hd : plainCell ≠ spanCell := by
    intro h
    exact Option.noConfusion (congrArg TCell.label h)
  have h := get_spanning_cells_2x2_block [] [plainCell]
    [plainCell, plainCell, plainCell, plainCell] spanCell rfl
    (by intro a ha; cases ha)
    (by intro a ha; rw [List.mem_singleton] at ha; rw [ha]; exact hd)
    (by intro a ha; simp at ha; rw [ha]; exact hd)
    (by simp)
  simpa using h

/-! ### Layout aggregator: `layout/utils.filter_tables` -/

/-- `schemas/elements.py` enum `Extractor`. -/
inductive Extr
  | doctr | pdfplumber | detectron2 | tatr | yolo
deriving DecidableEq, Repr

/-- `schemas/elements.py` enum `ElementType` (the element `type` tag used for
`isinstance` dispatch; `TableContent` subclasses `Table` and `Image` is a
`Paragraph`). -/
inductive EKind
  | word | line | cell | table | tableContent | text | list | title
  | extra | header | footer | image | visualElement
deriving DecidableEq, Repr

/-- The view of `Element` used by the layout aggregator: type tag, bbox,
page, originating extractor, and detected cells. -/
structure AElem where
  kind : EKind
  x0 : ℚ
  y0 : ℚ
  x1 : ℚ
  y1 : ℚ
  page : Option ℕ
  extr : Option Extr
  cells : Option (List TCell)
deriving DecidableEq, Repr

instance : Inhabited AElem := ⟨⟨.text, 0, 0, 0, 0, none, none, none⟩⟩

def AElem.toBb (e : AElem) : Bb := ⟨e.x0, e.y0, e.x1, e.y1⟩

/-- `Element.area` (inherited from `Bbox`). -/
def AElem.area (e : AElem) : ℚ := (e.x1 - e.x0) * (e.y1 - e.y0)

/-- `len(x.cells or [])`. -/
def nbCells (e : AElem) : ℕ := (e.cells.getD []).length

/-- `Layout.page_count`: `max((elem.page + 1 ...), default=0)`. -/
def pageCountA (layout : List AElem) : ℕ :=
  (layout.filterMap (fun e => e.page)).foldl (fun acc p => max acc (p + 1)) 0

/-- `Layout.get_elements_by_page` (order-preserving filter). -/
def elementsByPageA (layout : List AElem) (page : ℕ) : List AElem :=
  layout.filter (fun e => decide (e.page = some page))

/-- Stable insertion into a list sorted by the strict precedence `lt`
(`lt b a` = "b must stay before a"): the inserted element goes before the
first element it is not strictly preceded by.  `stableSortBy` below is a
stable sort, so it computes the same list as Python `sorted` (Timsort, also
stable) run with the same key. -/
def insertBy {α : Type} (lt : α → α → Bool) (a : α) : List α → List α
  | [] => [a]
  | b :: bs => if lt b a then b :: insertBy lt a bs else a :: b :: bs

/-- Stable insertion sort (see `insertBy`). -/
def stableSortBy {α : Type} (lt : α → α → Bool) : List α → List α
  | [] => []
  | a :: rest => insertBy lt a (stableSortBy lt rest)

/-- Precedence for `tables.sort(key=lambda x: (len(x.cells or []), x.area),
reverse=True)`: `x` strictly precedes `y` iff `x`'s key is lexicographically
larger. -/
def tblBefore (x y : AElem) : Bool :=
  decide (nbCells y < nbCells x ∨ (nbCells y = nbCells x ∧ y.area < x.area))

/-- Precedence for `Layout.sort_by_bbox`, Python key `(x.page, x.y1, x.x1)`
ascending.  A `None` page would make the Python comparison raise; every
element reaching this sort has its page set, modeled with `getD 0`. -/
def bboxLtA (a b : AElem) : Bool :=
  decide (a.page.getD 0 < b.page.getD 0 ∨ (a.page.getD 0 = b.page.getD 0 ∧
    (a.y1 < b.y1 ∨ (a.y1 = b.y1 ∧ a.x1 < b.x1))))

/-- `Layout.sort_by_bbox` for aggregator elements. -/
def sort_by_bboxA (l : List AElem) : List AElem := stableSortBy bboxLtA l

/-- Batch assignment of one table-like element in `filter_tables`: the
element joins the first batch one of whose members it overlaps by at least
the threshold, else it starts a new batch. -/
def addToBatches (thr : ℚ) : List (List AElem) → AElem → List (List AElem)
  | [], elem => [[elem]]
  | tables :: rest, elem =>
    if tables.any (fun tb => is_bbox_withinB elem.toBb tb.toBb thr) then
      (tables ++ [elem]) :: rest
    else
      tables :: addToBatches thr rest elem

/-- The per-page element scan of `filter_tables`: non-table-like elements go
to `filtered_elements`, table-like elements are clustered into batches. -/
def splitPage (thr : ℚ) (elems : List AElem) : List AElem × List (List AElem) :=
  elems.foldl
    (fun st elem =>
      if elem.kind = .table ∨ elem.kind = .tableContent ∨ elem.kind = .image then
        (st.1, addToBatches thr st.2 elem)
      else
        (st.1 ++ [elem], st.2))
    ([], [])

/-- The per-batch selection of `filter_tables`: keep all members when all are
images; otherwise, when there is a single source layout, or the first batch
member is YOLO-detected, or two different extractors appear among
non-images, keep the single non-image member with the most cells (ties by
larger area, earlier batch member on full ties); otherwise drop the batch.
The empty-match branch is unreachable (Python would raise `IndexError`):
the guard guarantees a non-image member exists. -/
def processBatch (nb_layout : ℕ) (filtered_tables : List AElem) (tables : List AElem) :
    List AElem :=
  if tables.all (fun t => decide (t.kind = .image)) then
    filtered_tables ++ tables
  else if nb_layout = 1 ∨ (tables.headD default).extr = some .yolo ∨
      tables.any (fun e => decide (e.extr ≠ (tables.headD default).extr ∧ e.kind ≠ .image)) then
    match stableSortBy tblBefore (tables.filter (fun t => decide (t.kind ≠ .image))) with
    | [] => filtered_tables
    | best :: _ => filtered_tables ++ [best]
  else
    filtered_tables

/-- `layout/utils.filter_tables`. -/
def filter_tables (layout : List AElem) (overlapping_threshold : ℚ) (nb_layout : ℕ) :
    List AElem :=
  let res := ((List.range (pageCountA layout)).map (elementsByPageA layout)).foldl
    (fun st elems =>
      let page := splitPage overlapping_threshold elems
      (st.1 ++ page.1, page.2.foldl (processBatch nb_layout) st.2))
    ([], [])
  sort_by_bboxA (res.1 ++ res.2)

/-- The weak table preference order: `u` has at most as many cells as `v`,
and on equal cell counts at most its area. -/
def tblLe (u v : AElem) : Prop :=
  nbCells u ≤ nbCells v ∧ (nbCells u = nbCells v → u.area ≤ v.area)

theorem tblLe_refl (u : AElem) : tblLe u u := ⟨le_refl _, fun _ => le_refl _⟩

theorem tblLe_trans {u v w : AElem} (h1 : tblLe u v) (h2 : tblLe v w) : tblLe u w := by
  obtain ⟨hn1, ha1⟩ := h1
  obtain ⟨hn2, ha2⟩ := h2
  refine ⟨le_trans hn1 hn2, fun h => ?_⟩
  have huv : nbCells u = nbCells v := by omega
  have hvw : nbCells v = nbCells w := by omega
  exact le_trans (ha1 huv) (ha2 hvw)

theorem tblBefore_false {x y : AElem} (h : tblBefore x y = false) : tblLe x y := by
  unfold tblBefore at h
  rw [decide_eq_false_iff_not] at h
  push_neg at h
  constructor
  · by_contra hlt
    exact absurd (h.1) (by omega)
  · intro he
    exact h.2 he.symm

theorem tblBefore_true {x y : AElem} (h : tblBefore x y = true) : tblLe y x := by
  unfold tblBefore at h
  rw [decide_eq_true_eq] at h
  rcases h with h | ⟨he, ha⟩
  · exact ⟨le_of_lt h, fun hc => absurd hc (by omega)⟩
  · exact ⟨le_of_eq he, fun _ => le_of_lt ha⟩

theorem insertBy_ne_nil {α : Type} (lt : α → α → Bool) (a : α) (l : List α) :
    insertBy lt a l ≠ [] := by
  cases l with
  | nil => simp [insertBy]
  | cons b bs =>
    unfold insertBy
    split_ifs <;> simp

theorem stableSortBy_eq_nil {α : Type} (lt : α → α → Bool) {l : List α}
    (h : stableSortBy lt l = []) : l = [] := by
  cases l with
  | nil => rfl
  | cons a rest => exact absurd h (insertBy_ne_nil lt a _)

theorem mem_insertBy {α : Type} (lt : α → α → Bool) (a : α) (l : List α) (x : α) :
    x ∈ insertBy lt a l ↔ x = a ∨ x ∈ l := by
  induction l with
  | nil => simp [insertBy]
  | cons b bs ih =>
    unfold insertBy
    split_ifs <;> (simp only [List.mem_cons, ih]; try tauto)

theorem mem_stableSortBy {α : Type} (lt : α → α → Bool) (l : List α) (x : α) :
    x ∈ stableSortBy lt l ↔ x ∈ l := by
  induction l with
  | nil => simp [stableSortBy]
  | cons a rest ih =>
    unfold stableSortBy
    rw [mem_insertBy]
    simp [ih]

/-- The head of the descending stable sort by `(nbCells, area)` dominates
every list member in cell count, areas breaking ties. -/
theorem sortDesc_head (l : List AElem) :
    ∀ b t, stableSortBy tblBefore l = b :: t → b ∈ l ∧ ∀ x ∈ l, tblLe x b := by
  induction l with
  | nil => intro b t h; cases h
  | cons a rest ih =>
    intro b t h
    unfold stableSortBy at h
    cases hsr : stableSortBy tblBefore rest with
    | nil =>
      have hrest : rest = [] := stableSortBy_eq_nil _ hsr
      rw [hsr] at h
      unfold insertBy at h
      cases h
      subst hrest
      exact ⟨by simp, by intro x hx; simp at hx; rw [hx]; exact tblLe_refl _⟩
    | cons c t2 =>
      rw [hsr] at h
      obtain ⟨hcmem, hcmax⟩ := ih c t2 hsr
      unfold insertBy at h
      by_cases hca : tblBefore c a = true
      · rw [if_pos hca] at h
        cases h
        refine ⟨by simp [hcmem], ?_⟩
        intro x hx
        rcases List.mem_cons.mp hx with hx | hx
        · rw [hx]; exact tblBefore_true hca
        · exact hcmax x hx
      · rw [if_neg hca] at h
        cases h
        refine ⟨by simp, ?_⟩
        intro x hx
        rcases List.mem_cons.mp hx with hx | hx
        · rw [hx]; exact tblLe_refl _
        · exact tblLe_trans (hcmax x hx)
            (tblBefore_false (Bool.eq_false_iff.mpr hca))

/-- The 6-cell table detection of the scenario (extractor `tatr`). -/
def tbl6 : AElem :=
  ⟨.table, 1/10, 1/10, 9/10, 1/2, some 0, some .tatr, some (List.replicate 6 plainCell)⟩

/-- The 9-cell table detection of the same region (extractor `detectron2`). -/
def tbl9 : AElem :=
  ⟨.table, 1/10, 1/10, 9/10, 1/2, some 0, some .detectron2, some (List.replicate 9 plainCell)⟩

/-- C4: in every batch of overlapping table detections the aggregator keeps,
the element retained is a non-image member with the most detected cells,
ties broken by larger bbox area; in particular, for the same table detected
with 6 cells by `tatr` and 9 cells by `detectron2`, overlapping by 1 ≥ 0.5,
`filter_tables` keeps exactly the 9-cell detection. -/
theorem filter_tables_keeps_most_cells :
    (∀ (nb_layout : ℕ) (acc tables : List AElem),
      tables.all (fun t => decide (t.kind = .image)) = false →
      (nb_layout = 1 ∨ (tables.headD default).extr = some .yolo ∨
        tables.any (fun e => decide (e.extr ≠ (tables.headD default).extr ∧
          e.kind ≠ .image)) = true) →
      ∃ best, processBatch nb_layout acc tables = acc ++ [best] ∧
        best ∈ tables ∧ best.kind ≠ .image ∧
        ∀ u ∈ tables, u.kind ≠ .image →
          nbCells u ≤ nbCells best ∧ (nbCells u = nbCells best → u.area ≤ best.area)) ∧
    filter_tables [tbl6, tbl9] (1/2) 2 = [tbl9] := by
  constructor
  · intro nb_layout acc tables hall hkeep
    have hex : ∃ t ∈ tables, ¬ t.kind = .image := by
      by_contra hc
      push_neg at hc
      have hta : tables.all (fun t => decide (t.kind = .image)) = true := by
        rw [List.all_eq_true]
        intro t ht
        exact decide_eq_true (hc t ht)
      rw [hta] at hall
      cases hall
    obtain ⟨t0, ht0, ht0i⟩ := hex
    have ht0f : t0 ∈ tables.filter (fun t => decide (t.kind ≠ .image)) := by
      rw [List.mem_filter]
      exact ⟨ht0, by simpa using ht0i⟩
    cases hsort : stableSortBy tblBefore
        (tables.filter (fun t => decide (t.kind ≠ .image))) with
    | nil =>
      rw [stableSortBy_eq_nil _ hsort] at ht0f
      cases ht0f
    | cons best t2 =>
      obtain ⟨hbmem, hbmax⟩ := sortDesc_head _ best t2 hsort
      rw [List.mem_filter] at hbmem
      refine ⟨best, ?_, hbmem.1, by simpa using hbmem.2, ?_⟩
      · unfold processBatch
        rw [if_neg (by simp [hall]), if_pos hkeep, hsort]
      · intro u hu hui
        have huf : u ∈ tables.filter (fun t => decide (t.kind ≠ .image)) := by
          rw [List.mem_filter]
          exact ⟨hu, by simpa using hui⟩
        exact hbmax u huf
  · norm_num [filter_tables, pageCountA, elementsByPageA, splitPage, addToBatches,
      processBatch, stableSortBy, insertBy, tblBefore, nbCells, sort_by_bboxA, bboxLtA,
      is_bbox_withinB, calculate_intersection_area, Bb.area, AElem.toBb, AElem.area,
      tbl6, tbl9, List.foldl_cons, List.foldl_nil, List.filterMap_cons, List.range_succ, List.filter_cons, List.any_cons, List.any_nil, List.all_cons,
      List.all_nil, Nat.max_def]

/-- Witness for `filter_tables_keeps_most_cells`: the general per-batch part
applied to the concrete batch `[tbl6, tbl9]`. -/
theorem filter_tables_keeps_most_cells_witness :
    ∃ best, processBatch 2 [] [tbl6, tbl9] = [] ++ [best] ∧
      best ∈ [tbl6, tbl9] ∧ best.kind ≠ .image ∧
      ∀ u ∈ [tbl6, tbl9], u.kind ≠ .image →
        nbCells u ≤ nbCells best ∧ (nbCells u = nbCells best → u.area ≤ best.area) :=
  filter_tables_keeps_most_cells.1 2 [] [tbl6, tbl9]
    (by simp [tbl6, tbl9])
    (Or.inr (Or.inr (by simp [tbl6, tbl9])))

/-! ### Cross-page table merging:
`enrichment/layout_modifier.LayoutModifier.join_table_overlapping_pages` -/

instance : Inhabited TCell := ⟨⟨none, 0, 0, 0, 0, none⟩⟩

/-- The view of `TableContent` used by the cross-page merge: bbox, page,
inferred flag, cells, row-major string content, and the cross-page
`pages`/`bboxes` metadata lists. -/
structure TC where
  x0 : ℚ
  y0 : ℚ
  x1 : ℚ
  y1 : ℚ
  page : Option ℕ
  inferred : Bool
  cells : Option (List TCell)
  content : List (List String)
  pagesMeta : Option (List (Option ℕ))
  bboxesMeta : Option (List Bb)
deriving DecidableEq, Repr

/-- `TableContent.nb_columns` (`len(self.content[0])`, 0 for empty content
with a warning). -/
def TC.nb_columns (t : TC) : ℕ := (t.content.headD []).length

/-- `TableContent.first_row_is_header`: false when content or cells is
empty/absent, else true iff every first-row cell carries a header label. -/
def TC.first_row_is_header (t : TC) : Bool :=
  match t.cells with
  | none => false
  | some cs =>
    if t.content = [] ∨ cs = [] then false
    else (cs.take t.nb_columns).all
      (fun cell => decide (cell.label = some "spanning_header" ∨
        cell.label = some "cell_header"))

/-- `enrichment/utils.is_cutting_a_cell`. -/
def is_cutting_a_cell (current_cell : TCell) (cell_list : List TCell)
    (x_offset_current x_offset_list tolerance_threshold : ℚ) : Bool :=
  cell_list.any (fun cell =>
    if cell.label = some "spanning_cell" ∨ cell.label = some "spanning_header" then
      false
    else
      decide ((cell.x0 + tolerance_threshold * (cell.x1 - cell.x0) - x_offset_list
            < current_cell.x0 - x_offset_current ∧
          current_cell.x0 - x_offset_current
            < cell.x1 - tolerance_threshold * (cell.x1 - cell.x0) - x_offset_list) ∨
        (cell.x0 + tolerance_threshold * (cell.x1 - cell.x0) - x_offset_list
            < current_cell.x1 - x_offset_current ∧
          current_cell.x1 - x_offset_current
            < cell.x1 - tolerance_threshold * (cell.x1 - cell.x0) - x_offset_list)))

/-- `enrichment/utils.columns_matching`.  `cells[-nb:]` is Python negative
slicing: the last `nb` cells, the whole list when `nb = 0`; `row[0].x0` on
an empty row would raise in Python (`headD default` here, unreachable under
the theorems' hypotheses). -/
def columns_matching (table1 table2 : TC) (tolerance_threshold : ℚ) : Bool :=
  match table1.cells, table2.cells with
  | some cs1, some cs2 =>
    let table1_row := if table1.nb_columns = 0 then cs1
      else cs1.drop (cs1.length - table1.nb_columns)
    let table2_row := cs2.take table2.nb_columns
    let x_offset_table1 := (table1_row.headD default).x0
    let x_offset_table2 := (table2_row.headD default).x0
    (! table1_row.any (fun c1 =>
        is_cutting_a_cell c1 table2_row x_offset_table1 x_offset_table2
          tolerance_threshold)) &&
    (! table2_row.any (fun c2 =>
        is_cutting_a_cell c2 table1_row x_offset_table2 x_offset_table1
          tolerance_threshold))
  | _, _ => false

/-- `TableContent.merge_element`: concatenate cells (or drop them when either
side has none) and row content, and maintain the cross-page `pages`/`bboxes`
metadata pair (set both on the first merge when the own bbox re-creates,
append the other's when its bbox re-creates). -/
def TC.merge_element (t other : TC) : TC :=
  let newCells := match t.cells, other.cells with
    | some c1, some c2 => some (c1 ++ c2)
    | _, _ => none
  let pm0 := match Bb.create t.x0 t.x1 t.y0 t.y1 with
    | some b => (some (t.pagesMeta.getD [t.page]), some (t.bboxesMeta.getD [b]))
    | none => (t.pagesMeta, t.bboxesMeta)
  let pm1 := match Bb.create other.x0 other.x1 other.y0 other.y1 with
    | some b2 => (pm0.1.map (fun l => l ++ [other.page]), pm0.2.map (fun l => l ++ [b2]))
    | none => pm0
  { t with cells := newCells, content := t.content ++ other.content,
           pagesMeta := pm1.1, bboxesMeta := pm1.2 }

/-- The view of layout elements for the enrichment pass: a `TableContent`
carries its table data; any other element carries only what candidate
selection inspects (its type tag, inferred flag and page). -/
inductive JElem
  | tbl (t : TC)
  | other (kind : EKind) (inferred : Bool) (page : Option ℕ)
deriving DecidableEq, Repr

/-- `element.inferred`. -/
def JElem.inferred : JElem → Bool
  | .tbl t => t.inferred
  | .other _ i _ => i

/-- `isinstance(element, Extra)` (`Header`/`Footer` are `Extra`). -/
def JElem.isExtra : JElem → Bool
  | .tbl _ => false
  | .other k _ _ => decide (k = .extra ∨ k = .header ∨ k = .footer)

/-- `isinstance(element, (Extra, VisualElement))`. -/
def JElem.isExtraOrVisual : JElem → Bool
  | .tbl _ => false
  | .other k _ _ => decide (k = .extra ∨ k = .header ∨ k = .footer ∨ k = .visualElement)

/-- The scan of `enrichment/utils.get_next_candidate_position` over the
elements after `position`. -/
def nextCandLoop : List JElem → ℕ → Bool → Bool → Option ℕ
  | [], _, _, _ => none
  | e :: rest, idx, skippedExtra, skippedInferred =>
    if ¬ e.isExtraOrVisual ∧ ¬ e.inferred then
      if skippedInferred ∧ ¬ skippedExtra then none else some idx
    else
      nextCandLoop rest (idx + 1) (skippedExtra || e.isExtra)
        (skippedInferred || e.inferred)

/-- `enrichment/utils.get_next_candidate_position`. -/
def get_next_candidate_position (position : ℕ) (root : List JElem) : Option ℕ :=
  nextCandLoop (root.drop (position + 1)) (position + 1) false false

/-- The merge guard of `join_table_overlapping_pages` for a current
`TableContent` (with its page set) and the next candidate element when that
candidate is a `TableContent`: next page is the successor page, equal column
counts, differing first rows (`content[0]`, Python raises on empty content —
`headD []` here, with nonempty contents in the theorems), the second table's
first row is not a detected header, and matching column boundaries. -/
def joinTableCheck (t1 t2 : TC) (tol : ℚ) : Bool :=
  match t1.page with
  | none => false
  | some p =>
    decide (t2.page = some (p + 1)) &&
    decide (t1.nb_columns = t2.nb_columns) &&
    decide (t1.content.headD [] ≠ t2.content.headD []) &&
    (! t2.first_row_is_header) &&
    columns_matching t1 t2 tol

/-- One iteration of the `for current_elem, element in enumerate(layout.root)`
loop of `join_table_overlapping_pages` (the loop only marks indexes for
removal and merges in place, so the root length is stable during the loop). -/
def joinStep (tol : ℚ) (st : List JElem × List ℕ) (i : ℕ) : List JElem × List ℕ :=
  if i ∈ st.2 then st
  else
    match st.1[i]? with
    | some (.tbl t1) =>
      match t1.page with
      | none => st
      | some _ =>
        match get_next_candidate_position i st.1 with
        | none => st
        | some j =>
          match st.1[j]? with
          | some (.tbl t2) =>
            if joinTableCheck t1 t2 tol then
              (st.1.set i (.tbl (t1.merge_element t2)), st.2 ++ [j])
            else st
          | _ => st
    | _ => st

/-- `for n in remove_index[::-1]: layout.root.pop(n)`. -/
def removeIndices (root : List JElem) (remove_index : List ℕ) : List JElem :=
  remove_index.reverse.foldl (fun r n => r.eraseIdx n) root

/-- `LayoutModifier.join_table_overlapping_pages`. -/
def join_table_overlapping_pages (tol : ℚ) (root : List JElem) : List JElem :=
  let res := (List.range root.length).foldl (joinStep tol) (root, [])
  removeIndices res.1 res.2

/-- C6: for two consecutive `TableContent` elements, the pass merges them
exactly when the guard holds (consecutive pages, equal column counts,
differing first rows, second first row not a header, matching column
boundaries), and the merged element's content is the first table's rows
followed by the second table's rows, so splitting at the first table's
original row count reproduces both original row-sets; when the guard fails
the layout is unchanged. -/
theorem join_table_overlapping_pages_reversible (t1 t2 : TC) (tol : ℚ) (p : ℕ)
    (hp1 : t1.page = some p) (hinf : t2.inferred = false) :
    (joinTableCheck t1 t2 tol = true →
      join_table_overlapping_pages tol [.tbl t1, .tbl t2]
        = [.tbl (t1.merge_element t2)] ∧
      (t1.merge_element t2).content = t1.content ++ t2.content ∧
      (t1.merge_element t2).content.take t1.content.length = t1.content ∧
      (t1.merge_element t2).content.drop t1.content.length = t2.content) ∧
    (joinTableCheck t1 t2 tol = false →
      join_table_overlapping_pages tol [.tbl t1, .tbl t2] = [.tbl t1, .tbl t2]) := by
  have hnext0 : get_next_candidate_position 0 [JElem.tbl t1, JElem.tbl t2] = some 1 := by
    simp [get_next_candidate_position, nextCandLoop, JElem.isExtraOrVisual, JElem.inferred,
      hinf]
  have hcontent : (t1.merge_element t2).content = t1.content ++ t2.content := by
    simp [TC.merge_element]
  constructor
  · intro hcheck
    refine ⟨?_, hcontent, by rw [hcontent]; simp, by rw [hcontent]; simp⟩
    unfold join_table_overlapping_pages
    simp only [List.length_cons, List.length_nil]
    rw [show List.range (0 + 1 + 1) = [0, 1] by rfl]
    rw [List.foldl_cons, List.foldl_cons, List.foldl_nil]
    rw [show joinStep tol ([JElem.tbl t1, JElem.tbl t2], []) 0
        = ([JElem.tbl (t1.merge_element t2), JElem.tbl t2], [1]) from by
      unfold joinStep
      rw [if_neg (by simp)]
      simp only [List.getElem?_cons_zero, hp1, hnext0]
      simp [hcheck]]
    rw [show joinStep tol ([JElem.tbl (t1.merge_element t2), JElem.tbl t2], [1]) 1
        = ([JElem.tbl (t1.merge_element t2), JElem.tbl t2], [1]) from by
      unfold joinStep
      rw [if_pos (by simp)]]
    simp [removeIndices, List.eraseIdx]
  · intro hcheck
    unfold join_table_overlapping_pages
    simp only [List.length_cons, List.length_nil]
    rw [show List.range (0 + 1 + 1) = [0, 1] by rfl]
    rw [List.foldl_cons, List.foldl_cons, List.foldl_nil]
    rw [show joinStep tol ([JElem.tbl t1, JElem.tbl t2], []) 0
        = ([JElem.tbl t1, JElem.tbl t2], []) from by
      unfold joinStep
      rw [if_neg (by simp)]
      simp only [List.getElem?_cons_zero, hp1, hnext0]
      simp [hcheck]]
    rw [show joinStep tol ([JElem.tbl t1, JElem.tbl t2], []) 1
        = ([JElem.tbl t1, JElem.tbl t2], []) from by
      unfold joinStep
      rw [if_neg (by simp)]
      cases ht2 : t2.page with
      | none => simp [ht2]
      | some q =>
        simp only [List.getElem?_cons_succ, List.getElem?_cons_zero, ht2]
        simp [get_next_candidate_position, nextCandLoop]]
    simp [removeIndices]

/-- A concrete left-column cell spanning x 0 to 1/2. -/
def cellL : TCell := ⟨none, 0, 0, 1/2, 1/10, some 0⟩

/-- A concrete right-column cell spanning x 1/2 to 1. -/
def cellR : TCell := ⟨none, 1/2, 0, 1, 1/10, some 0⟩

/-- A two-row, two-column table on page 0. -/
def wt1 : TC := ⟨0, 0, 1, 1/2, some 0, false, some [cellL, cellR, cellL, cellR],
  [["a", "b"], ["c", "d"]], none, none⟩

/-- A one-row, two-column continuation table on page 1 with aligned column
boundaries and a different first row. -/
def wt2 : TC := ⟨0, 1/2, 1, 9/10, some 1, false, some [cellL, cellR],
  [["e", "f"]], none, none⟩

/-- Witness for `join_table_overlapping_pages_reversible`: the concrete
continuation table merges, and splitting the merged rows at the first
table's row count gives back both row-sets. -/
theorem join_table_overlapping_pages_reversible_witness :
    join_table_overlapping_pages (1/10) [.tbl wt1, .tbl wt2]
      = [.tbl (wt1.merge_element wt2)] ∧
    (wt1.merge_element wt2).content = [["a", "b"], ["c", "d"], ["e", "f"]] ∧
    (wt1.merge_element wt2).content.take 2 = [["a", "b"], ["c", "d"]] ∧
    (wt1.merge_element wt2).content.drop 2 = [["e", "f"]] := by
  have hcheck : joinTableCheck wt1 wt2 (1/10) = true := by
    norm_num [joinTableCheck, wt1, wt2, TC.nb_columns, TC.first_row_is_header,
      columns_matching, is_cutting_a_cell, cellL, cellR, List.any_cons, List.any_nil,
      List.all_cons, List.all_nil]
    decide
  obtain ⟨h1, h2, h3, h4⟩ :=
    (join_table_overlapping_pages_reversible wt1 wt2 (1/10) 0 rfl rfl).1 hcheck
  have hlen : wt1.content.length = 2 := rfl
  refine ⟨h1, ?_, ?_, ?_⟩
  · rw [h2]
    rfl
  · rw [hlen] at h3
    rw [h3]
    rfl
  · rw [hlen] at h4
    rw [h4]
    rfl

/-! ### Column detection and reading-order sort: `structuration/sort_layout.py` -/

/-- A detected column `(x, y0, y1)`: a vertical gap at `x` valid between
`y0` and `y1`. -/
structure Col where
  x : ℚ
  y0 : ℚ
  y1 : ℚ
deriving DecidableEq, Repr

/-- The view of layout elements used by column detection and the
reading-order sort: type tag, bbox, page, cached `metadata["columns"]` and
`metadata["extended_x"]`.  Equality is pydantic value equality.  Pages are
plain naturals: every element reaching these functions has its page set
(`sort_by_bbox` would raise on a `None` page). -/
structure SElem where
  kind : EKind
  x0 : ℚ
  y0 : ℚ
  x1 : ℚ
  y1 : ℚ
  page : ℕ
  columns : List Col
  extended : Option (ℚ × ℚ)
deriving DecidableEq, Repr

instance : Inhabited SElem := ⟨⟨.text, 0, 0, 0, 0, 0, [], none⟩⟩

/-- `utils.match_interval`.  With a threshold, the Python ratio divides by
`interval1[1] - interval1[0]`; a zero-length `interval1` would raise
`ZeroDivisionError` (callers pass element intervals of positive length);
Lean division by zero yields 0. -/
def match_interval (interval1 interval2 : ℚ × ℚ) (threshold : Option ℚ) : Bool :=
  match threshold with
  | none => decide (interval1.1 < interval2.2 ∧ interval2.1 ≤ interval1.2)
  | some t =>
    decide (max 0 (min interval1.2 interval2.2 - max interval1.1 interval2.1)
      / (interval1.2 - interval1.1) ≥ t)

/-- `Element.extended_x0`. -/
def SElem.extended_x0 (e : SElem) : ℚ :=
  match e.extended with
  | some p => p.1
  | none => e.x0

/-- `Element.extended_x1`. -/
def SElem.extended_x1 (e : SElem) : ℚ :=
  match e.extended with
  | some p => p.2
  | none => e.x1

/-- `sort_layout.block_contain_space` (default `x_tolerance_ratio = 0.04`,
no tolerance for top-of-page columns, i.e. when `y_min = 0`). -/
def block_contain_space (s : ℚ × ℚ) (element : SElem) (y_min : ℚ) : Bool :=
  let x_tolerance := if y_min > 0
    then min (s.2 - s.1) (element.extended_x1 - element.extended_x0) * (4/100)
    else 0
  decide (element.extended_x0 - x_tolerance ≤ s.1 ∧ s.1 ≤ element.extended_x1 ∧
    element.extended_x0 ≤ s.2 ∧ s.2 ≤ element.extended_x1 + x_tolerance)

/-- `sort_layout.is_significant_gap` (default `min_gap_ratio = 1.0`; always
true for non-`Word` elements). -/
def is_significant_gap (space_interval : ℚ × ℚ) (element : SElem) : Bool :=
  if element.kind = .word then
    decide (space_interval.2 - space_interval.1 > (element.y1 - element.y0) * 1)
  else true

/-- `sort_layout.split_interval`: split each open space interval against one
element, closing (into columns) the intervals the element spans. -/
def split_interval (space : List (ℚ × ℚ)) (element : SElem) (y_min : ℚ) :
    List (ℚ × ℚ) × List Col :=
  space.foldl
    (fun st s =>
      if block_contain_space s element y_min then
        (st.1, st.2 ++ [⟨s.1 + (s.2 - s.1)/2, y_min, element.y0⟩])
      else if s.1 ≤ element.extended_x0 ∧ element.extended_x0 ≤ s.2 ∧
          s.1 ≤ element.extended_x1 ∧ element.extended_x1 ≤ s.2 then
        let st1 := if is_significant_gap (s.1, element.extended_x0) element then
            (st.1 ++ [(s.1, element.extended_x0)], st.2)
          else (st.1, st.2 ++ [⟨s.1 + (s.2 - s.1)/2, y_min, element.y0⟩])
        if is_significant_gap (element.extended_x1, s.2) element then
          (st1.1 ++ [(element.extended_x1, s.2)], st1.2)
        else (st1.1, st1.2 ++ [⟨s.1 + (s.2 - s.1)/2, y_min, element.y0⟩])
      else if s.1 ≤ element.extended_x0 ∧ element.extended_x0 ≤ s.2 then
        if is_significant_gap (s.1, element.extended_x0) element then
          (st.1 ++ [(s.1, element.extended_x0)], st.2)
        else (st.1, st.2 ++ [⟨s.1 + (s.2 - s.1)/2, y_min, element.y0⟩])
      else if s.1 ≤ element.extended_x1 ∧ element.extended_x1 ≤ s.2 then
        if is_significant_gap (element.extended_x1, s.2) element then
          (st.1 ++ [(element.extended_x1, s.2)], st.2)
        else (st.1, st.2 ++ [⟨s.1 + (s.2 - s.1)/2, y_min, element.y0⟩])
      else (st.1 ++ [s], st.2))
    ([], [])

/-- The candidate scan of `sort_layout.extend_title_bbox` for one `Title`
element (default `y_tolerance_ratio = 0.1`): elements below and matching on
the x interval, kept when they share (within tolerance) the lowest `y0`. -/
def extend_candidates (elements : List SElem) (ce : SElem) : List SElem :=
  elements.foldl
    (fun cands ne =>
      if ne.y0 > ce.y1 ∧ match_interval (ne.x0, ne.x1) (ce.x0, ce.x1) none then
        if cands = [] then [ne]
        else if cands.all (fun cand =>
            decide (cand.y0 - (ce.y1 - ce.y0) * (1/10) < ne.y0 ∧
              ne.y0 < cand.y0 + (ce.y1 - ce.y0) * (1/10))) then cands ++ [ne]
        else if cands.all (fun cand => decide (ne.y0 < cand.y0)) then [ne]
        else cands
      else cands)
    []

/-- The would-be `extended_x` pair of `extend_title_bbox` (the min/max of
the candidates' x extent together with the title's own). -/
def extend_target (elements : List SElem) (ce : SElem) : Option (ℚ × ℚ) :=
  let cands := extend_candidates elements ce
  if cands = [] then none
  else some (cands.foldl (fun acc e => min acc e.x0) ce.x0,
    cands.foldl (fun acc e => max acc e.x1) ce.x1)

/-- The overlap veto of `extend_title_bbox`: some other element (Python
`element is not current_element`, object identity, modeled by list
position) intersects the widened x interval on the title's y band. -/
def overlaps_other (elements : List SElem) (i : ℕ) (ce : SElem) (ex : ℚ × ℚ) : Bool :=
  elements.enum.any (fun pe =>
    decide (pe.1 ≠ i) && match_interval ex (pe.2.x0, pe.2.x1) none &&
      match_interval (ce.y0, ce.y1) (pe.2.y0, pe.2.y1) none)

/-- The per-element body of `extend_title_bbox`. -/
def extend_one (elements : List SElem) (i : ℕ) (ce : SElem) : SElem :=
  if ce.kind = .title then
    match extend_target elements ce with
    | none => ce
    | some ex =>
      if overlaps_other elements i ce ex then ce
      else { ce with extended := some ex }
  else ce

/-- `sort_layout.extend_title_bbox`.  The loop reads only raw bbox fields of
the page's elements and writes only `extended_x` metadata, so later
iterations are unaffected by earlier writes and the loop is a map. -/
def extend_title_bbox (elements : List SElem) : List SElem :=
  elements.enum.map (fun pe => extend_one elements pe.1 pe.2)

/-- Ascending element order by `(y0, x0)` (for the merged obstacle list). -/
def elemLtY0X0 (a b : SElem) : Bool :=
  decide (a.y0 < b.y0 ∨ (a.y0 = b.y0 ∧ a.x0 < b.x0))

/-- Ascending column order by x. -/
def colLtX (a b : Col) : Bool := decide (a.x < b.x)

/-- Ascending column order by `(y0, x)` (page column list order). -/
def colLtY0X (a b : Col) : Bool :=
  decide (a.y0 < b.y0 ∨ (a.y0 = b.y0 ∧ a.x < b.x))

/-- Ascending element order by `(page, y1, x1)` (`Layout.sort_by_bbox`). -/
def bboxLtS (a b : SElem) : Bool :=
  decide (a.page < b.page ∨ (a.page = b.page ∧
    (a.y1 < b.y1 ∨ (a.y1 = b.y1 ∧ a.x1 < b.x1))))

/-- `Layout.page_count` for sort elements. -/
def pageCountS (layout : List SElem) : ℕ :=
  layout.foldl (fun acc e => max acc (e.page + 1)) 0

/-- `Layout.get_elements_by_page` for sort elements. -/
def elementsByPageS (layout : List SElem) (page : ℕ) : List SElem :=
  layout.filter (fun e => decide (e.page = page))

/-- The top-of-page scan of `detect_columns`: split `[0, 1]` against every
non-`Extra` element with `y0 > 0`, in layout order. -/
def topScan (elements : List SElem) : List (ℚ × ℚ) × List Col :=
  elements.foldl
    (fun st element =>
      if element.kind = .extra ∨ element.kind = .header ∨ element.kind = .footer then st
      else if element.y0 > 0 then
        let r := split_interval st.1 element 0
        (r.1, st.2 ++ r.2)
      else st)
    ([(0, 1)], [])

/-- The per-start-element scan of `detect_columns`: the new columns appended
to `start_element.metadata["columns"]` (loop columns in obstacle order, then
the leftover stubs running to the bottom of the page). -/
def elem_columns (all_elem : List SElem) (start_element : SElem) : List Col :=
  let r := all_elem.foldl
    (fun st element =>
      if element.y0 > start_element.y1 then
        let q := split_interval st.1 element start_element.y1
        (q.1, st.2 ++ q.2)
      else st)
    ([(start_element.x0, start_element.x1)], [])
  r.2 ++ r.1.map (fun s => ⟨s.1 + (s.2 - s.1)/2, start_element.y1, 1⟩)

/-- One page of `detect_columns`: extend titles, run the top scan (plus its
leftover stubs with full y range), build each element's sorted column cache
(old cache plus the new columns), and collect the page's column list sorted
by `(y_start, x)`.  On a page with OCR elements the obstacle list is the
page elements plus the OCR page elements sorted by `(y0, x0)`
(`elements[0].page` is the page of the nonempty page list). -/
def detectPage (elements : List SElem) (layout_ocr : Option (List SElem)) :
    List SElem × List Col :=
  let elements := extend_title_bbox elements
  if elements = [] then ([], [])
  else
    let top := topScan elements
    let topCols := top.2 ++ top.1.map (fun s => ⟨s.1 + (s.2 - s.1)/2, 0, 1⟩)
    let all_elem := match layout_ocr with
      | none => elements
      | some ocr => stableSortBy elemLtY0X0
          (elements ++ ocr.filter (fun e => decide (e.page = (elements.headD default).page)))
    let newElems := elements.map (fun start =>
      { start with columns :=
          stableSortBy colLtX (start.columns ++ elem_columns all_elem start) })
    (newElems, stableSortBy colLtY0X (topCols ++ (newElems.map (fun e => e.columns)).flatten))

/-- In-place update of the page-`p` elements of the root by the page's new
element list, positional (the Python loop mutates the page's element
objects, which sit in the root in the same order). -/
def updateByPage (root : List SElem) (p : ℕ) (new : List SElem) : List SElem :=
  match root with
  | [] => []
  | e :: rest =>
    if e.page = p then
      match new with
      | [] => e :: updateByPage rest p []
      | n :: new2 => n :: updateByPage rest p new2
    else e :: updateByPage rest p new

/-- `sort_layout.detect_columns`: returns the updated layout (column caches
and `extended_x` written into element metadata) and `columns_by_page`.  The
Python page loop reads each page's elements from the live root; pages are
disjoint and per-page updates only touch that page's elements, so each page
sees its original elements. -/
def detect_columns (layout : List SElem) (layout_ocr : Option (List SElem)) :
    List SElem × List (List Col) :=
  (List.range (pageCountS layout)).foldl
    (fun st page =>
      let r := detectPage (elementsByPageS st.1 page) layout_ocr
      (updateByPage st.1 page r.1, st.2 ++ [r.2]))
    (layout, [])

/-- `sort_layout.filter_relevant_columns`: keep the columns matching some
but not all of the candidate elements. -/
def filter_relevant_columns (all_columns : List Col) (elements : List SElem) :
    List Col :=
  all_columns.filter (fun col =>
    let matching := elements.filter (fun e =>
      decide (e.x0 < col.x) &&
        match_interval (e.y0, e.y1) (col.y0, col.y1) (some (1/10)))
    decide (0 < matching.length ∧ matching.length ≠ elements.length))

/-- `sort_layout.recurs_append_columns`.  The Python recursion terminates
because every recursive call happens after a new element was appended to
`ordered_layout`; the embedding carries explicit fuel and is always run
with fuel larger than the number of elements, which the recursion never
exhausts. -/
def recurs_append_columns (fuel : ℕ) (elements : List SElem) (column : Col)
    (ordered : List SElem) : List SElem :=
  match fuel with
  | 0 => ordered
  | fuel + 1 =>
    let elem_matching_col := elements.filter (fun e =>
      decide (e.x0 < column.x) &&
        match_interval (e.y0, e.y1) (column.y0, column.y1) (some (1/10)))
    elem_matching_col.foldl
      (fun ord element =>
        if element ∈ ord then ord
        else
          let ord1 := ord ++ [element]
          let all_prev_col := ((ord1.reverse.filter
            (fun e => decide (e.page = element.page))).map (fun e => e.columns)).flatten
          let cols := filter_relevant_columns all_prev_col elem_matching_col
          if cols = [] then ord1
          else cols.foldl (fun o c => recurs_append_columns fuel elem_matching_col c o) ord1)
      ordered

/-- `sort_layout.sort_layout_by_reading_order`: sort by bbox, then append
elements page by page following each page's columns, then append the
elements never reached, in root order (with a warning in the source).  The
source also copies the page's top columns into the first page element's
metadata for visualization, after that page's recursion; that write cannot
influence the output order (later pages filter previous columns by their
own page) and is not modeled. -/
def sort_layout_by_reading_order (layout : List SElem) (columns : List (List Col)) :
    List SElem :=
  let root := stableSortBy bboxLtS layout
  let ordered := (List.range (pageCountS root)).foldl
    (fun ord page =>
      (columns.getD page []).foldl
        (fun o col =>
          recurs_append_columns (root.length + 1) (elementsByPageS root page) col o)
        ord)
    []
  root.foldl (fun ord e => if e ∈ ord then ord else ord ++ [e]) ordered

/-- The literal idempotence property of the column-detection claim: a
second `detect_columns` run on the layout the first run updated (same
element set — the run only touches metadata) returns the same
`columns_by_page`. -/
def detectColumnsIdempotentClaim : Prop :=
  ∀ (layout : List SElem) (ocr : Option (List SElem)),
    (detect_columns (detect_columns layout ocr).1 ocr).2 = (detect_columns layout ocr).2

/-- Dropping every element's `metadata["columns"]` cache, as
`document_builder` does (`elem.metadata.pop("columns", None)`) before
re-detecting columns. -/
def clearColumnsCache (layout : List SElem) : List SElem :=
  layout.map (fun e => { e with columns := [] })

/-- `a` appears strictly before any occurrence of `b` in `l`. -/
def precedesIn (a b : SElem) : List SElem → Bool
  | [] => false
  | x :: xs => if x = a then true else if x = b then false else precedesIn a b xs

/-- The literal column-precedence property: for every layout (with the
column caches and title extensions `detect_columns` writes) and the column
set it detects, any two same-page elements with a detected column of that
page strictly between them (x-wise, with the y ranges matching the column at
the sorter's threshold 0.1) come out left before right. -/
def readingOrderColumnClaim : Prop :=
  ∀ (layout0 : List SElem) (ocr : Option (List SElem)) (a b : SElem) (col : Col) (p : ℕ),
    a ∈ (detect_columns layout0 ocr).1 →
    b ∈ (detect_columns layout0 ocr).1 →
    a.page = p → b.page = p →
    col ∈ ((detect_columns layout0 ocr).2).getD p [] →
    a.x1 < col.x → col.x < b.x0 →
    match_interval (a.y0, a.y1) (col.y0, col.y1) (some (1/10)) = true →
    match_interval (b.y0, b.y1) (col.y0, col.y1) (some (1/10)) = true →
    precedesIn a b
      (sort_layout_by_reading_order (detect_columns layout0 ocr).1
        (detect_columns layout0 ocr).2) = true

theorem filter_relevant_singleton (cols : List Col) (x : SElem) :
    filter_relevant_columns cols [x] = [] := by
  unfold filter_relevant_columns
  rw [List.filter_eq_nil_iff]
  intro col _
  simp only [decide_eq_true_eq, List.filter_cons, List.filter_nil]
  by_cases hq : (decide (x.x0 < col.x) &&
      match_interval (x.y0, x.y1) (col.y0, col.y1) (some (1/10))) = true
  · rw [if_pos hq]
    simp
  · rw [if_neg hq]
    simp

theorem recurs_two_elements (n : ℕ) (a b : SElem) (col : Col) (l : List SElem)
    (hl : l = [a, b] ∨ l = [b, a])
    (hfa : (decide (a.x0 < col.x) &&
      match_interval (a.y0, a.y1) (col.y0, col.y1) (some (1/10))) = true)
    (hfb : (decide (b.x0 < col.x) &&
      match_interval (b.y0, b.y1) (col.y0, col.y1) (some (1/10))) = false) :
    recurs_append_columns (n + 1) l col [] = [a] := by
  rw [recurs_append_columns]
  rcases hl with hl | hl <;> rw [hl] <;>
    simp only [List.filter_cons, List.filter_nil, hfa, hfb, if_true, if_false,
      List.foldl_cons, List.foldl_nil, List.not_mem_nil, if_neg, ite_false,
      List.nil_append, List.reverse_cons, List.reverse_nil, List.append_nil,
      List.filter_append, decide_eq_true_eq, filter_relevant_singleton, ite_true]
  all_goals simp [filter_relevant_singleton]

/-- C1 (amended): the reading-order sort does respect a separating column in
the two-element case: for two elements of page 0 and a single detected
column strictly between them in x, matching both on y at the sorter's 0.1
threshold, the left element comes out first — whichever input order the two
elements arrive in.  In particular the spec's scenario (A at (0,0,0.4,0.1),
B at (0.6,0,1,0.1), column x=0.5 over y∈(0,0.1)) sorts A before B.  The
general claim over larger layouts is refuted by
`sort_layout_column_precedence_cex`. -/
theorem sort_layout_two_elements_column (a b : SElem) (col : Col)
    (hap : a.page = 0) (hbp : b.page = 0) (hax : a.x0 < a.x1)
    (h1 : a.x1 < col.x) (h2 : col.x < b.x0)
    (hya : match_interval (a.y0, a.y1) (col.y0, col.y1) (some (1/10)) = true)
    (hyb : match_interval (b.y0, b.y1) (col.y0, col.y1) (some (1/10)) = true) :
    sort_layout_by_reading_order [a, b] [[col]] = [a, b] ∧
    sort_layout_by_reading_order [b, a] [[col]] = [a, b] := by
  have hne : a ≠ b := by
    intro h
    rw [h] at hax h1
    linarith
  have hfa : (decide (a.x0 < col.x) &&
      match_interval (a.y0, a.y1) (col.y0, col.y1) (some (1/10))) = true := by
    rw [hya, Bool.and_true, decide_eq_true_eq]
    linarith
  have hfb : (decide (b.x0 < col.x) &&
      match_interval (b.y0, b.y1) (col.y0, col.y1) (some (1/10))) = false := by
    have : ¬ b.x0 < col.x := by linarith
    simp [this]
  have hsort : ∀ l : List SElem, l = [a, b] ∨ l = [b, a] →
      stableSortBy bboxLtS l = [a, b] ∨ stableSortBy bboxLtS l = [b, a] := by
    intro l hl
    rcases hl with hl | hl <;> rw [hl] <;>
      simp only [stableSortBy, insertBy] <;>
      by_cases hlt : bboxLtS b a = true
    · rw [if_pos hlt]; right; rfl
    · rw [if_neg hlt]; left; rfl
    · by_cases hlt2 : bboxLtS a b = true
      · rw [if_pos hlt2]; left; rfl
      · rw [if_neg hlt2]; right; rfl
    · by_cases hlt2 : bboxLtS a b = true
      · rw [if_pos hlt2]; left; rfl
      · rw [if_neg hlt2]; right; rfl
  have main : ∀ l : List SElem, l = [a, b] ∨ l = [b, a] →
      sort_layout_by_reading_order l [[col]] = [a, b] := by
    intro l hl
    have hroot := hsort l hl
    rw [sort_layout_by_reading_order]
    have hpc : pageCountS (stableSortBy bboxLtS l) = 1 := by
      rcases hroot with hr | hr <;> rw [hr] <;>
        simp [pageCountS, hap, hbp]
    have hlen : (stableSortBy bboxLtS l).length = 2 := by
      rcases hroot with hr | hr <;> rw [hr] <;> rfl
    have hep : elementsByPageS (stableSortBy bboxLtS l) 0 = stableSortBy bboxLtS l := by
      rcases hroot with hr | hr <;> rw [hr] <;>
        simp [elementsByPageS, hap, hbp]
    rw [hpc, hlen]
    have hrange : List.range 1 = [0] := rfl
    rw [hrange]
    have hcols : ([[col]] : List (List Col)).getD 0 [] = [col] := rfl
    simp only [List.foldl_cons, List.foldl_nil]
    rw [hcols]
    simp only [List.foldl_cons, List.foldl_nil]
    rw [hep]
    have hrec : recurs_append_columns (2 + 1) (stableSortBy bboxLtS l) col [] = [a] :=
      recurs_two_elements 2 a b col _ hroot hfa hfb
    rw [hrec]
    rcases hroot with hr | hr <;> rw [hr] <;>
      simp [List.foldl_cons, List.foldl_nil, hne, (Ne.symm hne : b ≠ a)]
  exact ⟨main [a, b] (Or.inl rfl), main [b, a] (Or.inr rfl)⟩

def specA : SElem := ⟨.text, 0, 0, 2/5, 1/10, 0, [], none⟩

def specB : SElem := ⟨.text, 3/5, 0, 1, 1/10, 0, [], none⟩

def specCol : Col := ⟨1/2, 0, 1/10⟩

/-- C1 (amended, witness): the spec scenario — A at (0,0,0.4,0.1), B at
(0.6,0,1,0.1), a column at x=0.5 over y∈(0,0.1) — sorts to [A, B] from
either input order. -/
theorem sort_layout_two_elements_column_witness :
    sort_layout_by_reading_order [specA, specB] [[specCol]] = [specA, specB] ∧
    sort_layout_by_reading_order [specB, specA] [[specCol]] = [specA, specB] :=
  sort_layout_two_elements_column specA specB specCol rfl rfl
    (by norm_num [specA]) (by norm_num [specA, specCol]) (by norm_num [specB, specCol])
    (by norm_num [match_interval, specA, specCol])
    (by norm_num [match_interval, specB, specCol])

def cF : SElem := ⟨.text, 17/20, 1/100, 19/20, 1/25, 0, [], none⟩

def cE : SElem := ⟨.text, 0, 1/20, 1, 1/10, 0, [], none⟩

def cB : SElem := ⟨.text, 3/5, 0, 4/5, 2/5, 0, [], none⟩

def cA : SElem := ⟨.text, 0, 0, 1/5, 1, 0, [], none⟩

def cF1 : SElem := ⟨.text, 17/20, 1/100, 19/20, 1/25, 0, [⟨9/10, 1/25, 1/20⟩], none⟩

def cE1 : SElem := ⟨.text, 0, 1/20, 1, 1/10, 0, [⟨1/2, 1/10, 1⟩], none⟩

def cB1 : SElem := ⟨.text, 3/5, 0, 4/5, 2/5, 0, [⟨7/10, 2/5, 1⟩], none⟩

def cA1 : SElem := ⟨.text, 0, 0, 1/5, 1, 0, [⟨1/10, 1, 1⟩], none⟩

def cCols : List Col := [⟨17/40, 0, 1/20⟩, ⟨39/40, 0, 1/20⟩, ⟨9/10, 1/25, 1/20⟩,
  ⟨1/2, 1/10, 1⟩, ⟨7/10, 2/5, 1⟩, ⟨1/10, 1, 1⟩]

theorem recursStep1 : recurs_append_columns 5 [cF1, cE1, cB1, cA1] ⟨17/40, 0, 1/20⟩ []
    = [] := by
  rw [show (5:ℕ) = 4 + 1 from rfl, recurs_append_columns]
  norm_num only [filter_relevant_columns, match_interval, cF1, cE1, cB1, cA1,
    List.foldl_cons, List.foldl_nil, List.filter_cons, List.filter_nil,
    List.mem_cons, List.not_mem_nil, List.mem_singleton, SElem.mk.injEq, Col.mk.injEq,
    List.reverse_cons, List.reverse_nil, List.append_nil, List.nil_append,
    List.map_cons, List.map_nil, List.flatten, List.cons_append, List.singleton_append,
    decide_eq_true_eq, Bool.and_eq_true, List.cons.injEq, and_true, true_and, and_false,
    false_and, or_false, false_or, ite_true, ite_false, List.cons_ne_nil, ne_eq,
    not_false_iff, not_true, List.length_cons, List.length_nil,
    sup_eq_max, inf_eq_min, max_def, min_def]

theorem recursStep2 : recurs_append_columns 5 [cF1, cE1, cB1, cA1] ⟨39/40, 0, 1/20⟩ []
    = [cF1, cB1] := by
  rw [show (5:ℕ) = 4 + 1 from rfl, recurs_append_columns]
  norm_num only [filter_relevant_columns, match_interval, cF1, cE1, cB1, cA1,
    List.foldl_cons, List.foldl_nil, List.filter_cons, List.filter_nil,
    List.mem_cons, List.not_mem_nil, List.mem_singleton, SElem.mk.injEq, Col.mk.injEq,
    List.reverse_cons, List.reverse_nil, List.append_nil, List.nil_append,
    List.map_cons, List.map_nil, List.flatten, List.cons_append, List.singleton_append,
    decide_eq_true_eq, Bool.and_eq_true, List.cons.injEq, and_true, true_and, and_false,
    false_and, or_false, false_or, ite_true, ite_false, List.cons_ne_nil, ne_eq,
    not_false_iff, not_true, List.length_cons, List.length_nil,
    sup_eq_max, inf_eq_min, max_def, min_def]

theorem recursStep3 : recurs_append_columns 5 [cF1, cE1, cB1, cA1] ⟨9/10, 1/25, 1/20⟩
    [cF1, cB1] = [cF1, cB1] := by
  rw [show (5:ℕ) = 4 + 1 from rfl, recurs_append_columns]
  norm_num only [filter_relevant_columns, match_interval, cF1, cE1, cB1, cA1,
    List.foldl_cons, List.foldl_nil, List.filter_cons, List.filter_nil,
    List.mem_cons, List.not_mem_nil, List.mem_singleton, SElem.mk.injEq, Col.mk.injEq,
    List.reverse_cons, List.reverse_nil, List.append_nil, List.nil_append,
    List.map_cons, List.map_nil, List.flatten, List.cons_append, List.singleton_append,
    decide_eq_true_eq, Bool.and_eq_true, List.cons.injEq, and_true, true_and, and_false,
    false_and, or_false, false_or, ite_true, ite_false, List.cons_ne_nil, ne_eq,
    not_false_iff, not_true, List.length_cons, List.length_nil,
    sup_eq_max, inf_eq_min, max_def, min_def]

theorem recursStep4 : recurs_append_columns 5 [cF1, cE1, cB1, cA1] ⟨1/2, 1/10, 1⟩
    [cF1, cB1] = [cF1, cB1, cA1] := by
  rw [show (5:ℕ) = 4 + 1 from rfl, recurs_append_columns]
  norm_num only [filter_relevant_columns, match_interval, cF1, cE1, cB1, cA1,
    List.foldl_cons, List.foldl_nil, List.filter_cons, List.filter_nil,
    List.mem_cons, List.not_mem_nil, List.mem_singleton, SElem.mk.injEq, Col.mk.injEq,
    List.reverse_cons, List.reverse_nil, List.append_nil, List.nil_append,
    List.map_cons, List.map_nil, List.flatten, List.cons_append, List.singleton_append,
    decide_eq_true_eq, Bool.and_eq_true, List.cons.injEq, and_true, true_and, and_false,
    false_and, or_false, false_or, ite_true, ite_false, List.cons_ne_nil, ne_eq,
    not_false_iff, not_true, List.length_cons, List.length_nil,
    sup_eq_max, inf_eq_min, max_def, min_def]

theorem recursStep5 : recurs_append_columns 5 [cF1, cE1, cB1, cA1] ⟨7/10, 2/5, 1⟩
    [cF1, cB1, cA1] = [cF1, cB1, cA1] := by
  rw [show (5:ℕ) = 4 + 1 from rfl, recurs_append_columns]
  norm_num only [filter_relevant_columns, match_interval, cF1, cE1, cB1, cA1,
    List.foldl_cons, List.foldl_nil, List.filter_cons, List.filter_nil,
    List.mem_cons, List.not_mem_nil, List.mem_singleton, SElem.mk.injEq, Col.mk.injEq,
    List.reverse_cons, List.reverse_nil, List.append_nil, List.nil_append,
    List.map_cons, List.map_nil, List.flatten, List.cons_append, List.singleton_append,
    decide_eq_true_eq, Bool.and_eq_true, List.cons.injEq, and_true, true_and, and_false,
    false_and, or_false, false_or, ite_true, ite_false, List.cons_ne_nil, ne_eq,
    not_false_iff, not_true, List.length_cons, List.length_nil,
    sup_eq_max, inf_eq_min, max_def, min_def]

theorem recursStep6 : recurs_append_columns 5 [cF1, cE1, cB1, cA1] ⟨1/10, 1, 1⟩
    [cF1, cB1, cA1] = [cF1, cB1, cA1] := by
  rw [show (5:ℕ) = 4 + 1 from rfl, recurs_append_columns]
  norm_num only [filter_relevant_columns, match_interval, cF1, cE1, cB1, cA1,
    List.foldl_cons, List.foldl_nil, List.filter_cons, List.filter_nil,
    List.mem_cons, List.not_mem_nil, List.mem_singleton, SElem.mk.injEq, Col.mk.injEq,
    List.reverse_cons, List.reverse_nil, List.append_nil, List.nil_append,
    List.map_cons, List.map_nil, List.flatten, List.cons_append, List.singleton_append,
    decide_eq_true_eq, Bool.and_eq_true, List.cons.injEq, and_true, true_and, and_false,
    false_and, or_false, false_or, ite_true, ite_false, List.cons_ne_nil, ne_eq,
    not_false_iff, not_true, List.length_cons, List.length_nil,
    sup_eq_max, inf_eq_min, max_def, min_def]

set_option maxHeartbeats 2000000 in
/-- C1 (counterexample): the literal claim fails on a four-element page.
With a footnote-sized text F at (0.85,0.01,0.95,0.04), a full-width strip e
at (0,0.05,1,0.1), a right block B at (0.6,0,0.8,0.4) and a left
full-height block A at (0,0,0.2,1), `detect_columns` produces (among
others) the column (0.5, 0.1, 1), which lies strictly between A (x1 = 0.2)
and B (x0 = 0.6) and y-matches both at threshold 0.1 — yet the sort
emits [F, B, A, e]: B comes before A. -/
theorem sort_layout_column_precedence_cex : ¬ readingOrderColumnClaim := by
  intro h
  have hk1 : (EKind.text = EKind.title) = False := by simp
  have hk2 : (EKind.text = EKind.extra) = False := by simp
  have hk3 : (EKind.text = EKind.header) = False := by simp
  have hk4 : (EKind.text = EKind.footer) = False := by simp
  have hk5 : (EKind.text = EKind.word) = False := by simp
  have hdet : detect_columns [cF, cE, cB, cA] none = ([cF1, cE1, cB1, cA1], [cCols]) := by
    norm_num only [hk1, hk2, hk3, hk4, hk5, detect_columns, detectPage, pageCountS,
      elementsByPageS, extend_title_bbox, extend_one, topScan, split_interval,
      block_contain_space, is_significant_gap, match_interval, SElem.extended_x0,
      SElem.extended_x1, elem_columns, stableSortBy, insertBy, colLtX, colLtY0X,
      updateByPage, cF, cE, cB, cA, cF1, cE1, cB1, cA1, cCols,
      List.foldl_cons, List.foldl_nil, List.filter_cons, List.filter_nil,
      List.range_succ, List.range_zero,
      List.any_cons, List.any_nil, List.all_cons, List.all_nil, List.enum,
      List.enumFrom, List.map_cons, List.map_nil, List.flatten, List.cons_append,
      List.nil_append, List.append_nil, List.singleton_append,
      SElem.mk.injEq, Col.mk.injEq, Prod.mk.injEq, List.cons.injEq,
      decide_eq_true_eq, Bool.and_eq_true, and_true, true_and, and_false, false_and,
      or_false, false_or, or_true, true_or, ite_true, ite_false, ne_eq, not_false_iff,
      not_true, List.cons_ne_nil, List.length_cons, List.length_nil, Nat.max_def,
      sup_eq_max, inf_eq_min, max_def, min_def]
  have hpF : cF1.page = 0 := rfl
  have hpE : cE1.page = 0 := rfl
  have hpB : cB1.page = 0 := rfl
  have hpA : cA1.page = 0 := rfl
  have hyF : cF1.y1 = 1/25 := rfl
  have hyE : cE1.y1 = 1/10 := rfl
  have hyB : cB1.y1 = 2/5 := rfl
  have hyA : cA1.y1 = 1 := rfl
  have hxF : cF1.x1 = 19/20 := rfl
  have hxE : cE1.x1 = 1 := rfl
  have hxB : cB1.x1 = 4/5 := rfl
  have hxA : cA1.x1 = 1/5 := rfl
  have dEF : (cE1 = cF1) = False := by norm_num [cE1, cF1]
  have dEB : (cE1 = cB1) = False := by norm_num [cE1, cB1]
  have dEA : (cE1 = cA1) = False := by norm_num [cE1, cA1]
  have hsort : sort_layout_by_reading_order [cF1, cE1, cB1, cA1] [cCols]
      = [cF1, cB1, cA1, cE1] := by
    norm_num only [sort_layout_by_reading_order, pageCountS, elementsByPageS, stableSortBy,
      insertBy, bboxLtS, cCols,
      hpF, hpE, hpB, hpA, hyF, hyE, hyB, hyA, hxF, hxE, hxB, hxA, dEF, dEB, dEA,
      recursStep1, recursStep2, recursStep3, recursStep4, recursStep5, recursStep6,
      List.foldl_cons, List.foldl_nil, List.filter_cons, List.filter_nil,
      List.range_succ, List.range_zero, List.getD_cons_zero,
      List.mem_cons, List.not_mem_nil, List.mem_singleton,
      decide_eq_true_eq, Bool.and_eq_true, List.cons.injEq, and_true, true_and, and_false,
      false_and, or_false, false_or, or_true, true_or, ite_true, ite_false, ne_eq,
      not_false_iff, not_true, List.length_cons, List.length_nil, Nat.max_def,
      List.nil_append, List.cons_append, List.append_nil]
  have ma : cA1 ∈ (detect_columns [cF, cE, cB, cA] none).1 := by
    rw [hdet]
    exact .tail _ (.tail _ (.tail _ (.head _)))
  have mb : cB1 ∈ (detect_columns [cF, cE, cB, cA] none).1 := by
    rw [hdet]
    exact .tail _ (.tail _ (.head _))
  have mc : (⟨1/2, 1/10, 1⟩ : Col) ∈ ((detect_columns [cF, cE, cB, cA] none).2).getD 0 [] := by
    rw [hdet]
    show _ ∈ cCols
    unfold cCols
    exact .tail _ (.tail _ (.tail _ (.head _)))
  have h2 := h [cF, cE, cB, cA] none cA1 cB1 ⟨1/2, 1/10, 1⟩ 0 ma mb rfl rfl mc
    (by norm_num [cA1]) (by norm_num [cB1])
    (by norm_num [match_interval, cA1])
    (by norm_num [match_interval, cB1])
  rw [hdet] at h2
  simp only [] at h2
  rw [hsort] at h2
  norm_num [precedesIn, cF1, cE1, cB1, cA1] at h2

def xE : SElem := ⟨.text, 1/5, 1/5, 4/5, 4/5, 0, [], none⟩

def xE1 : SElem := ⟨.text, 1/5, 1/5, 4/5, 4/5, 0, [⟨1/2, 4/5, 1⟩], none⟩

def xE2 : SElem := ⟨.text, 1/5, 1/5, 4/5, 4/5, 0, [⟨1/2, 4/5, 1⟩, ⟨1/2, 4/5, 1⟩], none⟩

def xCols1 : List Col := [⟨1/10, 0, 1⟩, ⟨9/10, 0, 1⟩, ⟨1/2, 4/5, 1⟩]

def xCols2 : List Col := [⟨1/10, 0, 1⟩, ⟨9/10, 0, 1⟩, ⟨1/2, 4/5, 1⟩, ⟨1/2, 4/5, 1⟩]

set_option maxHeartbeats 1000000 in
/-- C3 (counterexample): `detect_columns` is not idempotent on a static
layout.  A single text element at (0.2,0.2,0.8,0.8) yields three columns on
the first run; the first run also caches the element-derived column
(0.5, 0.8, 1) in the element's `metadata["columns"]`, and the second run
appends the re-detected columns to that cache (`setdefault` + `+=`), so the
second `columns_by_page` carries the element column twice. -/
theorem detect_columns_idempotent_cex : ¬ detectColumnsIdempotentClaim := by
  intro h
  have hk1 : (EKind.text = EKind.title) = False := by simp
  have hk2 : (EKind.text = EKind.extra) = False := by simp
  have hk3 : (EKind.text = EKind.header) = False := by simp
  have hk4 : (EKind.text = EKind.footer) = False := by simp
  have hk5 : (EKind.text = EKind.word) = False := by simp
  have h1 : detect_columns [xE] none = ([xE1], [xCols1]) := by
    norm_num only [hk1, hk2, hk3, hk4, hk5, detect_columns, detectPage, pageCountS,
      elementsByPageS, extend_title_bbox, extend_one, topScan, split_interval,
      block_contain_space, is_significant_gap, match_interval, SElem.extended_x0,
      SElem.extended_x1, elem_columns, stableSortBy, insertBy, colLtX, colLtY0X,
      updateByPage, xE, xE1, xCols1,
      List.foldl_cons, List.foldl_nil, List.filter_cons, List.filter_nil,
      List.range_succ, List.range_zero,
      List.any_cons, List.any_nil, List.all_cons, List.all_nil, List.enum,
      List.enumFrom, List.map_cons, List.map_nil, List.flatten, List.cons_append,
      List.nil_append, List.append_nil, List.singleton_append,
      SElem.mk.injEq, Col.mk.injEq, Prod.mk.injEq, List.cons.injEq,
      decide_eq_true_eq, Bool.and_eq_true, and_true, true_and, and_false, false_and,
      or_false, false_or, or_true, true_or, ite_true, ite_false, ne_eq, not_false_iff,
      not_true, List.cons_ne_nil, List.length_cons, List.length_nil, Nat.max_def,
      sup_eq_max, inf_eq_min, max_def, min_def]
  have h2 : detect_columns [xE1] none = ([xE2], [xCols2]) := by
    norm_num only [hk1, hk2, hk3, hk4, hk5, detect_columns, detectPage, pageCountS,
      elementsByPageS, extend_title_bbox, extend_one, topScan, split_interval,
      block_contain_space, is_significant_gap, match_interval, SElem.extended_x0,
      SElem.extended_x1, elem_columns, stableSortBy, insertBy, colLtX, colLtY0X,
      updateByPage, xE1, xE2, xCols2,
      List.foldl_cons, List.foldl_nil, List.filter_cons, List.filter_nil,
      List.range_succ, List.range_zero,
      List.any_cons, List.any_nil, List.all_cons, List.all_nil, List.enum,
      List.enumFrom, List.map_cons, List.map_nil, List.flatten, List.cons_append,
      List.nil_append, List.append_nil, List.singleton_append,
      SElem.mk.injEq, Col.mk.injEq, Prod.mk.injEq, List.cons.injEq,
      decide_eq_true_eq, Bool.and_eq_true, and_true, true_and, and_false, false_and,
      or_false, false_or, or_true, true_or, ite_true, ite_false, ne_eq, not_false_iff,
      not_true, List.cons_ne_nil, List.length_cons, List.length_nil, Nat.max_def,
      sup_eq_max, inf_eq_min, max_def, min_def]
  have h3 := h [xE] none
  rw [h1] at h3
  simp only [] at h3
  rw [h2] at h3
  norm_num [xCols1, xCols2] at h3

/-- Two sort elements agreeing on everything the title-extension pass reads
(type tag, raw bbox, page); they may differ in cached columns and in the
`extended_x` metadata. -/
def sameRaw (a b : SElem) : Prop :=
  a.kind = b.kind ∧ a.x0 = b.x0 ∧ a.y0 = b.y0 ∧ a.x1 = b.x1 ∧ a.y1 = b.y1 ∧
    a.page = b.page

theorem sameRaw_refl (a : SElem) : sameRaw a a := ⟨rfl, rfl, rfl, rfl, rfl, rfl⟩

theorem sameRaw_extend_one (l : List SElem) (i : ℕ) (ce : SElem) :
    sameRaw (extend_one l i ce) ce := by
  unfold extend_one
  split
  · split
    · exact sameRaw_refl ce
    · split
      · exact sameRaw_refl ce
      · exact ⟨rfl, rfl, rfl, rfl, rfl, rfl⟩
  · exact sameRaw_refl ce

theorem sameRaw.symm {a b : SElem} (h : sameRaw a b) : sameRaw b a := by
  obtain ⟨h1, h2, h3, h4, h5, h6⟩ := h
  exact ⟨h1.symm, h2.symm, h3.symm, h4.symm, h5.symm, h6.symm⟩

theorem forall₂_sameRaw_symm {l l' : List SElem} (h : List.Forall₂ sameRaw l l') :
    List.Forall₂ sameRaw l' l := by
  induction h with
  | nil => exact .nil
  | cons hab _ ih => exact .cons hab.symm ih

theorem all_y0_congr {acc acc' : List SElem} (h : List.Forall₂ sameRaw acc acc')
    (f : ℚ → Bool) : acc.all (fun c => f c.y0) = acc'.all (fun c => f c.y0) := by
  induction h with
  | nil => rfl
  | cons hab _ ih => simp only [List.all_cons, ih, hab.2.2.1]

theorem forall₂_nil_iff {R : SElem → SElem → Prop} {l l' : List SElem}
    (h : List.Forall₂ R l l') : l = [] ↔ l' = [] := by
  cases h with
  | nil => simp
  | cons => simp

theorem foldl_sameRaw_congr {acc acc' : List SElem} (h : List.Forall₂ sameRaw acc acc')
    (g : ℚ → SElem → ℚ) (hg : ∀ q a b, sameRaw a b → g q a = g q b) :
    ∀ q, acc.foldl g q = acc'.foldl g q := by
  induction h with
  | nil => intro q; rfl
  | cons hab _ ih => intro q; rw [List.foldl_cons, List.foldl_cons, hg q _ _ hab, ih]

theorem forall₂_append_single {l l' : List SElem} (h : List.Forall₂ sameRaw l l')
    {a b : SElem} (hab : sameRaw a b) :
    List.Forall₂ sameRaw (l ++ [a]) (l' ++ [b]) := by
  induction h with
  | nil => exact .cons hab .nil
  | cons h1 _ ih => exact .cons h1 ih

theorem extend_candidates_congr {l l' : List SElem} (h : List.Forall₂ sameRaw l l')
    {ce ce' : SElem} (hce : sameRaw ce ce') :
    List.Forall₂ sameRaw (extend_candidates l ce) (extend_candidates l' ce') := by
  unfold extend_candidates
  obtain ⟨hk, hx0, hy0, hx1, hy1, hp⟩ := hce
  have haux : ∀ {acc acc' : List SElem}, List.Forall₂ sameRaw acc acc' →
      List.Forall₂ sameRaw
        (l.foldl (fun cands ne =>
          if ne.y0 > ce.y1 ∧ match_interval (ne.x0, ne.x1) (ce.x0, ce.x1) none then
            if cands = [] then [ne]
            else if cands.all (fun cand =>
                decide (cand.y0 - (ce.y1 - ce.y0) * (1/10) < ne.y0 ∧
                  ne.y0 < cand.y0 + (ce.y1 - ce.y0) * (1/10))) then cands ++ [ne]
            else if cands.all (fun cand => decide (ne.y0 < cand.y0)) then [ne]
            else cands
          else cands) acc)
        (l'.foldl (fun cands ne =>
          if ne.y0 > ce'.y1 ∧ match_interval (ne.x0, ne.x1) (ce'.x0, ce'.x1) none then
            if cands = [] then [ne]
            else if cands.all (fun cand =>
                decide (cand.y0 - (ce'.y1 - ce'.y0) * (1/10) < ne.y0 ∧
                  ne.y0 < cand.y0 + (ce'.y1 - ce'.y0) * (1/10))) then cands ++ [ne]
            else if cands.all (fun cand => decide (ne.y0 < cand.y0)) then [ne]
            else cands
          else cands) acc') := by
    induction h with
    | nil => intro acc acc' hacc; exact hacc
    | @cons a b l₁ l₂ hab htail ih =>
      intro acc acc' hacc
      simp only [List.foldl_cons]
      apply ih
      obtain ⟨hk2, hx02, hy02, hx12, hy12, hp2⟩ := id hab
      rw [hy02, hx02, hx12, hy1, hy0, hx0, hx1]
      have hnil : (acc' = []) = (acc = []) := propext (forall₂_nil_iff hacc).symm
      have hall1 := (all_y0_congr hacc (fun y =>
        decide (y - (ce'.y1 - ce'.y0) * (1/10) < b.y0 ∧
          b.y0 < y + (ce'.y1 - ce'.y0) * (1/10)))).symm
      have hall2 := (all_y0_congr hacc (fun y => decide (b.y0 < y))).symm
      simp only [hnil, hall1, hall2]
      split_ifs
      all_goals first
        | exact hacc
        | exact .cons hab .nil
        | exact forall₂_append_single hacc hab
  exact haux .nil

theorem extend_target_congr {l l' : List SElem} (h : List.Forall₂ sameRaw l l')
    {ce ce' : SElem} (hce : sameRaw ce ce') :
    extend_target l ce = extend_target l' ce' := by
  unfold extend_target
  have hcand := extend_candidates_congr h hce
  obtain ⟨hk, hx0, hy0, hx1, hy1, hp⟩ := hce
  by_cases hn : extend_candidates l ce = []
  · have hn' : extend_candidates l' ce' = [] := (forall₂_nil_iff hcand).mp hn
    rw [if_pos hn, if_pos hn']
  · have hn' : ¬ extend_candidates l' ce' = [] := fun hh =>
      hn ((forall₂_nil_iff hcand).mpr hh)
    rw [if_neg hn, if_neg hn']
    refine congrArg some (Prod.ext ?_ ?_)
    · rw [hx0]
      exact foldl_sameRaw_congr hcand (fun q e => min q e.x0)
        (fun q u v huv => by simp only [huv.2.1]) _
    · rw [hx1]
      exact foldl_sameRaw_congr hcand (fun q e => max q e.x1)
        (fun q u v huv => by simp only [huv.2.2.2.1]) _

theorem overlaps_any_congr {l l' : List SElem} (h : List.Forall₂ sameRaw l l')
    {ce ce' : SElem} (hce : sameRaw ce ce') (i : ℕ) (ex : ℚ × ℚ) :
    ∀ n, (List.enumFrom n l).any (fun pe =>
        decide (pe.1 ≠ i) && match_interval ex (pe.2.x0, pe.2.x1) none &&
          match_interval (ce.y0, ce.y1) (pe.2.y0, pe.2.y1) none)
      = (List.enumFrom n l').any (fun pe =>
        decide (pe.1 ≠ i) && match_interval ex (pe.2.x0, pe.2.x1) none &&
          match_interval (ce'.y0, ce'.y1) (pe.2.y0, pe.2.y1) none) := by
  obtain ⟨hk, hx0, hy0, hx1, hy1, hp⟩ := hce
  induction h with
  | nil => intro n; rfl
  | @cons a b l₁ l₂ hab htail ih =>
    intro n
    obtain ⟨hk2, hx02, hy02, hx12, hy12, hp2⟩ := id hab
    simp only [List.enumFrom, List.any_cons]
    rw [ih (n + 1), hx02, hx12, hy02, hy12, hy0, hy1]

theorem overlaps_other_congr {l l' : List SElem} (h : List.Forall₂ sameRaw l l')
    {ce ce' : SElem} (hce : sameRaw ce ce') (i : ℕ) (ex : ℚ × ℚ) :
    overlaps_other l i ce ex = overlaps_other l' i ce' ex := by
  unfold overlaps_other
  simp only [List.enum]
  exact overlaps_any_congr h hce i ex 0

theorem extend_one_stable {l l' : List SElem} (h : List.Forall₂ sameRaw l l')
    (i : ℕ) (ce : SElem) :
    extend_one l' i (extend_one l i ce) = extend_one l i ce := by
  by_cases hk : ce.kind = .title
  · rcases htgt : extend_target l ce with _ | ex
    · have he1 : extend_one l i ce = ce := by
        simp [extend_one, hk, htgt]
      rw [he1]
      have htgt' : extend_target l' ce = none := by
        rw [← extend_target_congr h (sameRaw_refl ce), htgt]
      simp [extend_one, hk, htgt']
    · by_cases hov : overlaps_other l i ce ex = true
      · have he1 : extend_one l i ce = ce := by
          simp [extend_one, hk, htgt, hov]
        rw [he1]
        have htgt' : extend_target l' ce = some ex := by
          rw [← extend_target_congr h (sameRaw_refl ce), htgt]
        have hov' : overlaps_other l' i ce ex = true := by
          rw [← overlaps_other_congr h (sameRaw_refl ce) i ex]
          exact hov
        simp [extend_one, hk, htgt', hov']
      · have he1 : extend_one l i ce = { ce with extended := some ex } := by
          simp [extend_one, hk, htgt, hov]
        rw [he1]
        have hce2 : sameRaw ({ ce with extended := some ex }) ce :=
          ⟨rfl, rfl, rfl, rfl, rfl, rfl⟩
        have htgt' : extend_target l' { ce with extended := some ex } = some ex := by
          rw [extend_target_congr (forall₂_sameRaw_symm h) hce2, htgt]
        have hov' : ¬ overlaps_other l' i { ce with extended := some ex } ex = true := by
          rw [overlaps_other_congr (forall₂_sameRaw_symm h) hce2 i ex]
          exact hov
        have hk2 : ({ ce with extended := some ex } : SElem).kind = .title := hk
        simp [extend_one, hk2, htgt', hov']
  · have he1 : extend_one l i ce = ce := by
      simp [extend_one, hk]
    rw [he1]
    simp [extend_one, hk]

theorem extend_title_bbox_get (m : List SElem) (j : ℕ) (hj : j < m.length) :
    (extend_title_bbox m).get ⟨j, by simpa [extend_title_bbox, List.enum_length] using hj⟩
      = extend_one m j (m.get ⟨j, hj⟩) := by
  simp [extend_title_bbox, List.getElem_enum]

theorem extend_title_bbox_length (m : List SElem) :
    (extend_title_bbox m).length = m.length := by
  simp [extend_title_bbox, List.enum_length]

theorem forall₂_sameRaw_extendPage (l : List SElem) :
    List.Forall₂ sameRaw l (extend_title_bbox l) := by
  rw [List.forall₂_iff_get]
  refine ⟨(extend_title_bbox_length l).symm, ?_⟩
  intro j h1 h2
  rw [extend_title_bbox_get l j h1]
  exact (sameRaw_extend_one l j (l.get ⟨j, h1⟩)).symm

theorem extend_title_bbox_idem (l : List SElem) :
    extend_title_bbox (extend_title_bbox l) = extend_title_bbox l := by
  apply List.ext_get
  · rw [extend_title_bbox_length, extend_title_bbox_length]
  · intro j h1 h2
    have hj : j < (extend_title_bbox l).length := h2
    have hjl : j < l.length := by
      rw [extend_title_bbox_length] at hj
      exact hj
    rw [extend_title_bbox_get (extend_title_bbox l) j hj,
      extend_title_bbox_get l j hjl]
    exact extend_one_stable (forall₂_sameRaw_extendPage l) j (l.get ⟨j, hjl⟩)

theorem detectPage_extend (elems : List SElem) (ocr : Option (List SElem)) :
    detectPage (extend_title_bbox elems) ocr = detectPage elems ocr := by
  simp only [detectPage, extend_title_bbox_idem]

theorem updateByPage_spec (p : ℕ) :
    ∀ (root new : List SElem), (∀ e ∈ new, e.page = p) →
      new.length = (elementsByPageS root p).length →
      elementsByPageS (updateByPage root p new) p = new ∧
      ∀ q, q ≠ p → elementsByPageS (updateByPage root p new) q = elementsByPageS root q := by
  intro root
  induction root with
  | nil =>
    intro new hpages hlen
    simp only [elementsByPageS, List.filter_nil, List.length_nil] at hlen
    rw [List.length_eq_zero] at hlen
    subst hlen
    exact ⟨rfl, fun q _ => rfl⟩
  | cons e rest ih =>
    intro new hpages hlen
    by_cases he : e.page = p
    · cases new with
      | nil =>
        exfalso
        have hsplit : elementsByPageS (e :: rest) p = e :: elementsByPageS rest p := by
          simp [elementsByPageS, List.filter_cons, he]
        rw [hsplit] at hlen
        simp at hlen
      | cons n new2 =>
        have hn : n.page = p := hpages n (List.mem_cons_self n new2)
        have hlen2 : new2.length = (elementsByPageS rest p).length := by
          have hsplit : elementsByPageS (e :: rest) p = e :: elementsByPageS rest p := by
            simp [elementsByPageS, List.filter_cons, he]
          rw [hsplit] at hlen
          simpa using hlen
        obtain ⟨ih1, ih2⟩ := ih new2 (fun x hx => hpages x (List.mem_cons_of_mem n hx)) hlen2
        have hupd : updateByPage (e :: rest) p (n :: new2) = n :: updateByPage rest p new2 := by
          simp [updateByPage, he]
        constructor
        · rw [hupd]
          have hsplit : elementsByPageS (n :: updateByPage rest p new2) p
              = n :: elementsByPageS (updateByPage rest p new2) p := by
            simp [elementsByPageS, List.filter_cons, hn]
          rw [hsplit, ih1]
        · intro q hq
          have hnq : ¬ n.page = q := by rw [hn]; exact fun hh => hq hh.symm
          have heq2 : ¬ e.page = q := by rw [he]; exact fun hh => hq hh.symm
          rw [hupd]
          have h1 : elementsByPageS (n :: updateByPage rest p new2) q
              = elementsByPageS (updateByPage rest p new2) q := by
            simp [elementsByPageS, List.filter_cons, hnq]
          have h2 : elementsByPageS (e :: rest) q = elementsByPageS rest q := by
            simp [elementsByPageS, List.filter_cons, heq2]
          rw [h1, h2]
          exact ih2 q hq
    · have hlen2 : new.length = (elementsByPageS rest p).length := by
        have hsplit : elementsByPageS (e :: rest) p = elementsByPageS rest p := by
          simp [elementsByPageS, List.filter_cons, he]
        rwa [hsplit] at hlen
      obtain ⟨ih1, ih2⟩ := ih new hpages hlen2
      have hupd : updateByPage (e :: rest) p new = e :: updateByPage rest p new := by
        simp [updateByPage, he]
      constructor
      · rw [hupd]
        have h1 : elementsByPageS (e :: updateByPage rest p new) p
            = elementsByPageS (updateByPage rest p new) p := by
          simp [elementsByPageS, List.filter_cons, he]
        rw [h1, ih1]
      · intro q hq
        rw [hupd]
        by_cases heq : e.page = q
        · have h1 : elementsByPageS (e :: updateByPage rest p new) q
              = e :: elementsByPageS (updateByPage rest p new) q := by
            simp [elementsByPageS, List.filter_cons, heq]
          have h2 : elementsByPageS (e :: rest) q = e :: elementsByPageS rest q := by
            simp [elementsByPageS, List.filter_cons, heq]
          rw [h1, h2, ih2 q hq]
        · have h1 : elementsByPageS (e :: updateByPage rest p new) q
              = elementsByPageS (updateByPage rest p new) q := by
            simp [elementsByPageS, List.filter_cons, heq]
          have h2 : elementsByPageS (e :: rest) q = elementsByPageS rest q := by
            simp [elementsByPageS, List.filter_cons, heq]
          rw [h1, h2, ih2 q hq]

theorem updateByPage_map_page (p : ℕ) :
    ∀ (root new : List SElem), (∀ e ∈ new, e.page = p) →
      (updateByPage root p new).map (fun e => e.page) = root.map (fun e => e.page) := by
  intro root
  induction root with
  | nil => intro new _; rfl
  | cons e rest ih =>
    intro new hpages
    by_cases he : e.page = p
    · cases new with
      | nil =>
        simp only [updateByPage, he, if_true, List.map_cons]
        rw [ih [] (by intro x hx; cases hx)]
      | cons n new2 =>
        have hn : n.page = p := hpages n (List.mem_cons_self n new2)
        simp only [updateByPage, he, if_true, List.map_cons]
        rw [ih new2 (fun x hx => hpages x (List.mem_cons_of_mem n hx)), hn]
    · simp only [updateByPage, he, if_false, List.map_cons]
      rw [ih new hpages]

theorem pageCountS_congr {l l' : List SElem}
    (h : l.map (fun e => e.page) = l'.map (fun e => e.page)) :
    pageCountS l = pageCountS l' := by
  have h1 : pageCountS l
      = (l.map (fun e => e.page)).foldl (fun a q => max a (q + 1)) 0 :=
    (List.foldl_map (fun (e : SElem) => e.page) (fun a q => max a (q + 1)) l 0).symm
  have h2 : pageCountS l'
      = (l'.map (fun e => e.page)).foldl (fun a q => max a (q + 1)) 0 :=
    (List.foldl_map (fun (e : SElem) => e.page) (fun a q => max a (q + 1)) l' 0).symm
  rw [h1, h2, h]

theorem clearCols_elementsByPageS (l : List SElem) (p : ℕ) :
    elementsByPageS (clearColumnsCache l) p = clearColumnsCache (elementsByPageS l p) := by
  unfold elementsByPageS clearColumnsCache
  rw [List.filter_map]
  rfl

theorem clearCols_map_page (l : List SElem) :
    (clearColumnsCache l).map (fun e => e.page) = l.map (fun e => e.page) := by
  unfold clearColumnsCache
  rw [List.map_map]
  rfl

theorem forall₂_mem_right {R : SElem → SElem → Prop} :
    ∀ {l l' : List SElem}, List.Forall₂ R l l' → ∀ {b}, b ∈ l' → ∃ a ∈ l, R a b := by
  intro l l' h
  induction h with
  | nil => intro b hb; cases hb
  | @cons a c l₁ l₂ hab _ ih =>
    intro b hb
    cases hb with
    | head => exact ⟨a, List.mem_cons_self a l₁, hab⟩
    | tail _ hb2 =>
      obtain ⟨x, hx, hr⟩ := ih hb2
      exact ⟨x, List.mem_cons_of_mem a hx, hr⟩

theorem columns_extend_one (l : List SElem) (i : ℕ) (ce : SElem) :
    (extend_one l i ce).columns = ce.columns := by
  unfold extend_one
  split
  · split
    · rfl
    · split
      · rfl
      · rfl
  · rfl

theorem extendPage_columns {elems : List SElem} {e : SElem}
    (he : e ∈ extend_title_bbox elems) : ∃ x ∈ elems, e.columns = x.columns := by
  unfold extend_title_bbox at he
  obtain ⟨pe, hpe, hfe⟩ := List.mem_map.mp he
  have hx : pe.2 ∈ elems := by
    have := List.mem_map_of_mem Prod.snd hpe
    rwa [List.enum_map_snd] at this
  exact ⟨pe.2, hx, by rw [← hfe, columns_extend_one]⟩

theorem extendPage_pages {elems : List SElem} {e : SElem}
    (he : e ∈ extend_title_bbox elems) : ∃ x ∈ elems, e.page = x.page := by
  obtain ⟨x, hx, hr⟩ := forall₂_mem_right (forall₂_sameRaw_extendPage elems) he
  exact ⟨x, hx, hr.2.2.2.2.2.symm⟩

theorem SElem_eta_columns (s : SElem) (h : s.columns = []) :
    ({ s with columns := [] } : SElem) = s := by
  cases s
  simp_all

theorem elementsByPageS_pages {l : List SElem} {p : ℕ} {e : SElem}
    (he : e ∈ elementsByPageS l p) : e.page = p := by
  unfold elementsByPageS at he
  have := List.of_mem_filter he
  simpa using this

theorem detectPage_fst_length (elems : List SElem) (ocr : Option (List SElem)) :
    (detectPage elems ocr).1.length = elems.length := by
  simp only [detectPage]
  by_cases hE : extend_title_bbox elems = []
  · rw [if_pos hE]
    have := congrArg List.length hE
    rw [extend_title_bbox_length] at this
    simpa using this.symm
  · rw [if_neg hE]
    simp [extend_title_bbox_length]

theorem detectPage_fst_pages (elems : List SElem) (ocr : Option (List SElem)) (p : ℕ)
    (hp : ∀ e ∈ elems, e.page = p) :
    ∀ e ∈ (detectPage elems ocr).1, e.page = p := by
  intro e he
  simp only [detectPage] at he
  by_cases hE : extend_title_bbox elems = []
  · rw [if_pos hE] at he
    cases he
  · rw [if_neg hE] at he
    obtain ⟨s, hs, hse⟩ := List.mem_map.mp he
    obtain ⟨x, hx, hxp⟩ := extendPage_pages hs
    rw [← hse]
    show s.page = p
    rw [hxp]
    exact hp x hx

theorem clearCols_map_columns_update (l : List SElem) (g : SElem → List Col)
    (hl : ∀ e ∈ l, e.columns = []) :
    clearColumnsCache (l.map (fun s => { s with columns := g s })) = l := by
  unfold clearColumnsCache
  rw [List.map_map]
  have hstep : ∀ s ∈ l, ((fun e => { e with columns := ([] : List Col) }) ∘
      (fun s => { s with columns := g s })) s = s := by
    intro s hs
    have := hl s hs
    show ({ { s with columns := g s } with columns := ([] : List Col) } : SElem) = s
    cases s
    simp_all
  rw [List.map_congr_left hstep]
  simp

theorem clearCols_detectPage (elems : List SElem) (ocr : Option (List SElem))
    (hclean : ∀ e ∈ elems, e.columns = []) :
    clearColumnsCache (detectPage elems ocr).1 = extend_title_bbox elems := by
  have hEcols : ∀ e ∈ extend_title_bbox elems, e.columns = [] := by
    intro e he
    obtain ⟨x, hx, hc⟩ := extendPage_columns he
    rw [hc]
    exact hclean x hx
  simp only [detectPage]
  by_cases hE : extend_title_bbox elems = []
  · rw [if_pos hE, hE]
    rfl
  · rw [if_neg hE]
    exact clearCols_map_columns_update (extend_title_bbox elems) _ hEcols

/-- The page fold of `detect_columns`, cut at an arbitrary page count. -/
def detectFold (layout : List SElem) (ocr : Option (List SElem)) (k : ℕ) :
    List SElem × List (List Col) :=
  (List.range k).foldl (fun st page =>
    (updateByPage st.1 page (detectPage (elementsByPageS st.1 page) ocr).1,
      st.2 ++ [(detectPage (elementsByPageS st.1 page) ocr).2])) (layout, [])

theorem detect_columns_eq_fold (layout : List SElem) (ocr : Option (List SElem)) :
    detect_columns layout ocr = detectFold layout ocr (pageCountS layout) := rfl

theorem detectFold_spec (layout : List SElem) (ocr : Option (List SElem)) :
    ∀ k : ℕ,
      (detectFold layout ocr k).2
        = (List.range k).map (fun p => (detectPage (elementsByPageS layout p) ocr).2)
      ∧ (detectFold layout ocr k).1.map (fun e => e.page) = layout.map (fun e => e.page)
      ∧ ∀ p, elementsByPageS (detectFold layout ocr k).1 p
          = if p < k then (detectPage (elementsByPageS layout p) ocr).1
            else elementsByPageS layout p := by
  intro k
  induction k with
  | zero =>
    refine ⟨rfl, rfl, ?_⟩
    intro p
    rw [if_neg (Nat.not_lt_zero p)]
    rfl
  | succ k ih =>
    obtain ⟨ih2, ihpg, ih1⟩ := ih
    have hstep : detectFold layout ocr (k + 1)
        = (updateByPage (detectFold layout ocr k).1 k
            (detectPage (elementsByPageS (detectFold layout ocr k).1 k) ocr).1,
          (detectFold layout ocr k).2 ++
            [(detectPage (elementsByPageS (detectFold layout ocr k).1 k) ocr).2]) := by
      unfold detectFold
      rw [List.range_succ, List.foldl_append]
      rfl
    have hk : elementsByPageS (detectFold layout ocr k).1 k = elementsByPageS layout k := by
      rw [ih1 k, if_neg (lt_irrefl k)]
    have hpages : ∀ e ∈ (detectPage (elementsByPageS (detectFold layout ocr k).1 k) ocr).1,
        e.page = k := by
      rw [hk]
      exact detectPage_fst_pages _ ocr k (fun e he => elementsByPageS_pages he)
    have hlen : (detectPage (elementsByPageS (detectFold layout ocr k).1 k) ocr).1.length
        = (elementsByPageS (detectFold layout ocr k).1 k).length := by
      rw [detectPage_fst_length]
    obtain ⟨hu1, hu2⟩ := updateByPage_spec k (detectFold layout ocr k).1 _ hpages hlen
    refine ⟨?_, ?_, ?_⟩
    · rw [hstep]
      simp only []
      rw [ih2, hk, List.range_succ, List.map_append]
      rfl
    · rw [hstep]
      simp only []
      rw [updateByPage_map_page k _ _ hpages, ihpg]
    · intro p
      rw [hstep]
      simp only []
      by_cases hp : p = k
      · subst hp
        rw [hu1, hk, if_pos (Nat.lt_succ_self p)]
      · rw [hu2 p hp, ih1 p]
        by_cases hpk : p < k
        · rw [if_pos hpk, if_pos (Nat.lt_succ_of_lt hpk)]
        · rw [if_neg hpk, if_neg (by omega)]

/-- C3 (amended): `detect_columns` is idempotent once the per-element
`metadata["columns"]` caches are cleared between the two runs — exactly how
`document_builder` re-runs it (`elem.metadata.pop("columns", None)`).  For a
layout whose caches start empty, clearing the caches the first run wrote
and re-running yields the same `columns_by_page`; the literal claim (no
cache clearing) is refuted by `detect_columns_idempotent_cex`. -/
theorem detect_columns_idempotent_after_cache_clear
    (layout : List SElem) (ocr : Option (List SElem))
    (hclean : ∀ e ∈ layout, e.columns = []) :
    (detect_columns (clearColumnsCache (detect_columns layout ocr).1) ocr).2
      = (detect_columns layout ocr).2 := by
  obtain ⟨h2a, hpga, h1a⟩ := detectFold_spec layout ocr (pageCountS layout)
  have hpg2 : (clearColumnsCache (detect_columns layout ocr).1).map (fun e => e.page)
      = layout.map (fun e => e.page) := by
    rw [clearCols_map_page, detect_columns_eq_fold]
    exact hpga
  have hN : pageCountS (clearColumnsCache (detect_columns layout ocr).1)
      = pageCountS layout := pageCountS_congr hpg2
  obtain ⟨h2b, hpgb, h1b⟩ := detectFold_spec
    (clearColumnsCache (detect_columns layout ocr).1) ocr
    (pageCountS (clearColumnsCache (detect_columns layout ocr).1))
  rw [detect_columns_eq_fold layout ocr] at hN h2b hpgb h1b
  rw [detect_columns_eq_fold
      (clearColumnsCache (detect_columns layout ocr).1) ocr,
    detect_columns_eq_fold layout ocr, h2b, h2a, hN]
  apply List.map_congr_left
  intro p hp
  have hplt : p < pageCountS layout := List.mem_range.mp hp
  have hEP : elementsByPageS
      (clearColumnsCache (detectFold layout ocr (pageCountS layout)).1) p
      = extend_title_bbox (elementsByPageS layout p) := by
    rw [clearCols_elementsByPageS, h1a p, if_pos hplt]
    exact clearCols_detectPage _ ocr (fun e he => hclean e (List.mem_filter.mp he).1)
  rw [hEP, detectPage_extend]

/-- C3 (amended, witness): the cache-clearing re-run at the counterexample
layout — a single text element at (0.2,0.2,0.8,0.8) — reproduces the first
run's `columns_by_page`. -/
theorem detect_columns_idempotent_after_cache_clear_witness :
    (detect_columns (clearColumnsCache (detect_columns [xE] none).1) none).2
      = (detect_columns [xE] none).2 :=
  detect_columns_idempotent_after_cache_clear [xE] none (by
    intro e he
    rw [List.mem_singleton] at he
    subst he
    rfl)

/-! ### Paragraph population: `structuration/utils.py` -/

/-- An OCR `Word`: bbox plus text content. -/
structure W where
  x0 : ℚ
  y0 : ℚ
  x1 : ℚ
  y1 : ℚ
  content : String
deriving DecidableEq, Repr

instance : Inhabited W := ⟨⟨0, 0, 0, 0, ""⟩⟩

def W.toBb (w : W) : Bb := ⟨w.x0, w.y0, w.x1, w.y1⟩

/-- An OCR `Line`: its page and its words. -/
structure Ln where
  page : ℕ
  content : List W
deriving DecidableEq, Repr

/-- A `VisualElement` of the OCR layout. -/
structure VE where
  x0 : ℚ
  y0 : ℚ
  x1 : ℚ
  y1 : ℚ
  page : ℕ
deriving DecidableEq, Repr

/-- A `PLayout` element as paragraph population sees it: type tag, bbox,
`metadata["page"]`, `metadata["inferred"]` and word content.  In the source
`Text`, `List`, `Title`, `Extra`, `Header`, `Footer` and `Image` are all
`Paragraph` subclasses; tables are not. -/
structure PElem where
  kind : EKind
  x0 : ℚ
  y0 : ℚ
  x1 : ℚ
  y1 : ℚ
  page : ℕ
  inferred : Bool
  content : List W
deriving DecidableEq, Repr

instance : Inhabited PElem := ⟨⟨.text, 0, 0, 0, 0, 0, false, []⟩⟩

def PElem.toBb (e : PElem) : Bb := ⟨e.x0, e.y0, e.x1, e.y1⟩

/-- `isinstance(element, Paragraph)`. -/
def isParagraphKind : EKind → Bool
  | .text | .list | .title | .extra | .header | .footer | .image => true
  | _ => false

/-- `element.type not in [ElementType.EXTRA, ElementType.HEADER,
ElementType.FOOTER]`. -/
def isExtraKind : EKind → Bool
  | .extra | .header | .footer => true
  | _ => false

/-- `utils.no_columns_between_elements` (on plain bboxes: it is called on
words and on paragraph elements). -/
def no_columns_between (element next_element : Bb) (columns : List Col) : Bool :=
  ! columns.any (fun col =>
    match_interval (element.y0, element.y1) (col.y0, col.y1) none &&
      match_interval (next_element.y0, next_element.y1) (col.y0, col.y1) none &&
      decide (element.x1 < col.x ∧ col.x < next_element.x0))

/-- `utils.no_visual_elements_between_elements`. -/
def no_visual_elements_between (element next_element : Bb) (visual_elements : List VE) :
    Bool :=
  ! visual_elements.any (fun ve =>
    match_interval (element.x0, element.x1) (ve.x0, ve.x1) none &&
      match_interval (next_element.x0, next_element.x1) (ve.x0, ve.x1) none &&
      decide (element.y1 < ve.y0 ∧ ve.y0 < next_element.y0))

/-- The paragraph store: the structural layout's elements at indices
`0..root.length-1` (object identity = index) followed by the inferred
paragraphs the run creates.  `append_word_to_paragraph`: the word joins the
first `Paragraph` of the page whose bbox contains it at the threshold
(`is_bbox_within`, boolean — the pipeline's thresholds are nonnegative, so
the source's negative-threshold `ValueError` cannot fire). -/
def append_word_to_paragraph (store : List PElem) (pageIds : List ℕ) (word : W)
    (threshold_word : ℚ) : Option (ℕ × List PElem) :=
  match pageIds with
  | [] => none
  | i :: rest =>
    let e := store.getD i default
    if isParagraphKind e.kind ∧ is_bbox_withinB word.toBb e.toBb threshold_word = true then
      some (i, store.set i { e with content := e.content ++ [word] })
    else append_word_to_paragraph store rest word threshold_word

/-- `utils.append_word_with_prev_word`: glue the word to the element that
took the previous word when no column separates the two words.  Python's
`line[n_word - 1]` at `n_word = 0` is the last word of the line (negative
index); that case is unreachable, as `prev_element` is `None` at the start
of every line. -/
def append_word_with_prev_word (store : List PElem) (columns : List Col) (line : List W)
    (word : W) (n_word : ℕ) (prev_element : Option ℕ) : Option (ℕ × List PElem) :=
  match prev_element with
  | none => none
  | some pid =>
    let prevWord := line.getD (if n_word = 0 then line.length - 1 else n_word - 1) default
    if no_columns_between prevWord.toBb word.toBb columns = true then
      let e := store.getD pid default
      if isParagraphKind e.kind then
        some (pid, store.set pid { e with content := e.content ++ [word] })
      else some (pid, store)
    else none

/-- Inner loop of `append_word_anticipating_next_words`: the first page
paragraph containing `next_word` at the threshold, provided no column
separates `word` from `next_word` (or the word is a matched chapter). -/
def anticipateFind (store : List PElem) (pageIds : List ℕ) (columns : List Col)
    (word next_word : W) (threshold_word : ℚ) (chapter_override : Bool) :
    Option (ℕ × List PElem) :=
  match pageIds with
  | [] => none
  | i :: rest =>
    let e := store.getD i default
    if isParagraphKind e.kind ∧ is_bbox_withinB next_word.toBb e.toBb threshold_word = true ∧
        (no_columns_between word.toBb next_word.toBb columns = true ∨
          chapter_override = true) then
      some (i, store.set i { e with content := e.content ++ [word] })
    else anticipateFind store rest columns word next_word threshold_word chapter_override

/-- `utils.append_word_anticipating_next_words`, iterating over
`line[n_word:]` (which starts at the word itself). -/
def append_word_anticipating (store : List PElem) (pageIds : List ℕ) (columns : List Col)
    (next_words : List W) (word : W) (threshold_word : ℚ) (chapter_override : Bool) :
    Option (ℕ × List PElem) :=
  match next_words with
  | [] => none
  | nw :: rest =>
    match anticipateFind store pageIds columns word nw threshold_word chapter_override with
    | some r => some r
    | none => append_word_anticipating store pageIds columns rest word threshold_word
        chapter_override

/-- One word of `populate_paragraphs`' main loop: the four branches in
order — containing paragraph, previous word's element, anticipation, else a
new `inferred=True` single-word `Text` built through `Text.create` (which
validates and clamps the bbox; on failure nothing is added and
`prev_element` keeps its value). -/
def processWord (store : List PElem) (newParas : List ℕ) (prev_element : Option ℕ)
    (pageIds : List ℕ) (columns : List Col) (line : List W) (n_word : ℕ) (word : W)
    (threshold_word : ℚ) (look_for_chapters : Bool) (isChapter : String → Bool)
    (page : ℕ) : List PElem × List ℕ × Option ℕ :=
  match append_word_to_paragraph store pageIds word threshold_word with
  | some (i, store2) => (store2, newParas, some i)
  | none =>
    match append_word_with_prev_word store columns line word n_word prev_element with
    | some (i, store2) => (store2, newParas, some i)
    | none =>
      match append_word_anticipating store pageIds columns (line.drop n_word) word
          threshold_word (look_for_chapters && isChapter word.content) with
      | some (i, store2) => (store2, newParas, some i)
      | none =>
        match Bb.create word.x0 word.x1 word.y0 word.y1 with
        | some bb =>
          (store ++ [⟨.text, bb.x0, bb.y0, bb.x1, bb.y1, page, true, [word]⟩],
            newParas ++ [store.length], some store.length)
        | none => (store, newParas, prev_element)

/-- One OCR line: `prev_element` starts at `None` and threads through the
word loop. -/
def processLine (pageIds : List ℕ) (columns : List Col) (line : List W)
    (threshold_word : ℚ) (look_for_chapters : Bool) (isChapter : String → Bool)
    (page : ℕ) (st : List PElem × List ℕ) : List PElem × List ℕ :=
  let r := line.enum.foldl
    (fun (s : List PElem × List ℕ × Option ℕ) nw =>
      processWord s.1 s.2.1 s.2.2 pageIds columns line nw.1 nw.2 threshold_word
        look_for_chapters isChapter page)
    (st.1, st.2, none)
  (r.1, r.2.1)

/-- `Layout.page_count` over an OCR layout of lines and visual elements. -/
def pageCountOcr (lines : List Ln) (visuals : List VE) : ℕ :=
  visuals.foldl (fun acc v => max acc (v.page + 1))
    (lines.foldl (fun acc l => max acc (l.page + 1)) 0)

/-- `Layout.page_count` over the structural layout. -/
def pageCountP (layout : List PElem) : ℕ :=
  layout.foldl (fun acc e => max acc (e.page + 1)) 0

/-- `get_word_list(ocr_page)`: one word list per `Line` of the page (visual
elements filtered out); an entirely empty page yields a single empty
line. -/
def wordLines (lines : List Ln) (visuals : List VE) (page : ℕ) : List (List W) :=
  if lines.filter (fun l => decide (l.page = page)) = [] ∧
      visuals.filter (fun v => decide (v.page = page)) = [] then [[]]
  else (lines.filter (fun l => decide (l.page = page))).map (fun l => l.content)

/-- `columns_by_page[page] if columns_by_page and len(columns_by_page) >
page else []`. -/
def colsFor (columns_by_page : Option (List (List Col))) (page : ℕ) : List Col :=
  match columns_by_page with
  | none => []
  | some cbp => if page < cbp.length then cbp.getD page [] else []

/-- `utils.update_paragraph_bbox`: shrink-wrap the bbox onto the content.
Python's `min()`/`max()` raise on an empty content list; that case is
unreachable (inferred paragraphs always hold a word) and leaves the element
unchanged here. -/
def update_paragraph_bbox (p : PElem) : PElem :=
  match p.content with
  | [] => p
  | w :: ws =>
    { p with
      x0 := ws.foldl (fun a u => min a u.x0) w.x0
      x1 := ws.foldl (fun a u => max a u.x1) w.x1
      y0 := ws.foldl (fun a u => min a u.y0) w.y0
      y1 := ws.foldl (fun a u => max a u.y1) w.y1 }

/-- The position scan of `insert_paragraphs_in_layout` for one paragraph:
either the loop itself inserted (the paragraph is the only one of its page,
placed before the first later-page element), or it ends with the collected
candidate positions. -/
inductive ScanRes
  | loopInsert (k : ℕ)
  | done (perfect : Option ℕ) (ipos : Option ℕ) (lastNE : Option (ℕ × ℚ))
      (lastE : Option ℕ)
deriving DecidableEq, Repr

def insertScan (p : PElem) (columns_by_page : Option (List (List Col))) :
    ℕ → List PElem → Option ℕ → Option (ℕ × ℚ) → Option ℕ → ScanRes
  | _, [], ipos, lastNE, lastE => .done none ipos lastNE lastE
  | pos, e :: rest, ipos, lastNE, lastE =>
    let columns := colsFor columns_by_page e.page
    if e.page = p.page then
      if e.y0 > p.y0 ∧ (columns = [] ∨ no_columns_between e.toBb p.toBb columns = true) then
        if match_interval (e.x0, e.x1) (p.x0, p.x1) none then
          .done (some pos) ipos lastNE lastE
        else
          insertScan p columns_by_page (pos + 1) rest
            (if ipos = none then some pos else ipos)
            (if isExtraKind e.kind then lastNE else some (pos, e.y0)) (some pos)
      else
        insertScan p columns_by_page (pos + 1) rest ipos
          (if isExtraKind e.kind then lastNE else some (pos, e.y0)) (some pos)
    else if e.page > p.page then
      if lastE = none then .loopInsert pos else .done none ipos lastNE lastE
    else insertScan p columns_by_page (pos + 1) rest ipos lastNE lastE

/-- `list.insert(k, p)`. -/
def insertAt (root : List PElem) (k : ℕ) (p : PElem) : List PElem :=
  root.take k ++ p :: root.drop k

/-- Inserting one (bbox-updated) paragraph: the scan, then — unless the
paragraph is already value-present in the root (`paragraph not in
layout.root`, pydantic equality) — the perfect position, the first
candidate position, the end of its page (before trailing
extra/header/footer if higher), or the end of the layout. -/
def insertOne (root : List PElem) (p : PElem)
    (columns_by_page : Option (List (List Col))) : List PElem :=
  match insertScan p columns_by_page 0 root none none none with
  | .loopInsert k => insertAt root k p
  | .done perfect ipos lastNE lastE =>
    if p ∈ root then root
    else
      match perfect with
      | some k => insertAt root k p
      | none =>
        match ipos with
        | some k => insertAt root k p
        | none =>
          match lastE with
          | some kE =>
            match lastNE with
            | some q => if p.y0 < q.2 then insertAt root (q.1 + 1) p
                else insertAt root (kE + 1) p
            | none => insertAt root (kE + 1) p
          | none => root ++ [p]

/-- Python `list.index(x)`: the first value-equal position (0 when absent;
callers only use it when `x` is present). -/
def listIndex (x : PElem) : List PElem → ℕ
  | [] => 0
  | e :: rest => if e = x then 0 else listIndex x rest + 1

/-- Python `list.remove(x)`: drop the first value-equal occurrence. -/
def removeFirst (x : PElem) : List PElem → List PElem
  | [] => []
  | e :: rest => if e = x then rest else e :: removeFirst x rest

/-- The `while` of `merge_inferred_paragraphs` at enumerate position `pos`
holding the paragraph value `element`.  The source mutates the paragraph
object in place and finds it and its successor with value-based
`list.index` / `list.remove`; the embedding applies the content update at
the first value-equal position, which coincides with the source whenever no
two distinct objects in the root are value-equal — in particular everywhere
the theorems below evaluate it.  Fuel bounds the loop by the (shrinking)
root length. -/
def mergeWhile (visual_elements : List VE) : ℕ → ℕ → PElem → List PElem → List PElem
  | 0, _, _, root => root
  | fuel + 1, pos, element, root =>
    if pos + 1 < root.length ∧ (root.getD (pos + 1) default).inferred = true ∧
        element.page = (root.getD (pos + 1) default).page then
      let idx := listIndex element root
      let next_element := root.getD (idx + 1) default
      if isParagraphKind next_element.kind ∧
          match_interval (element.x0, element.x1) (next_element.x0, next_element.x1)
            none = true ∧
          no_visual_elements_between element.toBb next_element.toBb visual_elements
            = true then
        let element2 := { element with content := element.content ++ next_element.content }
        mergeWhile visual_elements fuel pos element2
          (removeFirst next_element (root.set idx element2))
      else root
    else root

/-- The outer loop of `merge_inferred_paragraphs`: Python's `enumerate`
over the live, shrinking root. -/
def mergeOuter (visual_elements : List VE) : ℕ → ℕ → List PElem → List PElem
  | 0, _, root => root
  | fuel + 1, pos, root =>
    if pos < root.length then
      let element := root.getD pos default
      let root2 := if isParagraphKind element.kind ∧ element.inferred = true then
          mergeWhile visual_elements root.length pos element root
        else root
      mergeOuter visual_elements fuel (pos + 1) root2
    else root

/-- `utils.merge_inferred_paragraphs`. -/
def merge_inferred_paragraphs (visual_elements : List VE) (root : List PElem) :
    List PElem :=
  mergeOuter visual_elements root.length 0 root

/-- `utils.insert_paragraphs_in_layout` (the `layout` here is the root list;
an empty root is falsy in Python and takes the create branch). -/
def insert_paragraphs_in_layout (root : List PElem) (paragraphs : List PElem)
    (visual_elements : List VE) (columns_by_page : Option (List (List Col))) :
    List PElem :=
  let root1 := if root = [] then paragraphs.map update_paragraph_bbox
    else paragraphs.foldl
      (fun r p => insertOne r (update_paragraph_bbox p) columns_by_page) root
  let root2 := merge_inferred_paragraphs visual_elements root1
  root2.map (fun p => if p.inferred = true then update_paragraph_bbox p else p)

/-- `utils.populate_paragraphs`.  The OCR layout is its lines plus its
visual elements; `regex_chapters` matching is abstracted by the predicate
`isChapter`.  A `None` structural layout returns the empty layout.  The
per-page element view aliases the root, so the store carries the root
elements (by index) followed by the created paragraphs. -/
def populate_paragraphs (ocr_lines : List Ln) (ocr_visuals : List VE)
    (layout : Option (List PElem)) (look_for_chapters : Bool)
    (isChapter : String → Bool) (columns_by_page : Option (List (List Col)))
    (threshold_word : ℚ) : List PElem :=
  match layout with
  | none => []
  | some root0 =>
    let page_count := max (if root0 = [] then 0 else pageCountP root0)
      (pageCountOcr ocr_lines ocr_visuals)
    let st := (List.range page_count).foldl
      (fun (st : List PElem × List ℕ) page =>
        let pageIds := (List.range root0.length).filter
          (fun i => decide ((st.1.getD i default).page = page))
        let columns := colsFor columns_by_page page
        (wordLines ocr_lines ocr_visuals page).foldl
          (fun st2 line => processLine pageIds columns line threshold_word
            look_for_chapters isChapter page st2)
          st)
      (root0, [])
    insert_paragraphs_in_layout (st.1.take root0.length)
      (st.2.map (fun i => st.1.getD i default)) ocr_visuals columns_by_page

/-- Total word count held by a layout's elements. -/
def totalWords (root : List PElem) : ℕ :=
  (root.map (fun e => e.content.length)).sum

/-- Total OCR word count. -/
def ocrWordCount (lines : List Ln) : ℕ :=
  (lines.map (fun l => l.content.length)).sum

/-- The literal word-conservation property: with initially unpopulated
structural elements no two of which overlap beyond the containment
threshold, population assigns every OCR word to exactly one element. -/
def wordConservationClaim : Prop :=
  ∀ (lines : List Ln) (visuals : List VE) (root : List PElem)
    (cbp : Option (List (List Col))) (thr : ℚ) (look : Bool)
    (isChapter : String → Bool),
    0 < thr →
    (∀ e ∈ root, e.content = []) →
    (∀ i j, i < root.length → j < root.length → i ≠ j →
      is_bbox_withinB (root.getD i default).toBb (root.getD j default).toBb thr
        = false) →
    totalWords (populate_paragraphs lines visuals (some root) look isChapter cbp thr)
      = ocrWordCount lines

def wdup : W := ⟨1/10, 1/2, 3/10, 3/5, "dup"⟩

def pP : PElem := ⟨.text, 1/2, 0, 9/10, 1/5, 0, false, []⟩

set_option maxHeartbeats 2000000 in
/-- C2 (counterexample): population is not word-conservative.  Two OCR
lines each holding the same word value (same bbox, same text) on a page
with one far-away empty paragraph: each line synthesizes an inferred
single-word paragraph, the two inferred paragraphs are value-equal, and
`insert_paragraphs_in_layout` skips the second one (`paragraph not in
layout.root` is pydantic value equality) — 2 words in, 1 word out. -/
theorem populate_word_conservation_cex : ¬ wordConservationClaim := by
  intro h
  have h2 := h [⟨0, [wdup]⟩, ⟨0, [wdup]⟩] [] [pP] none (1/4) false (fun _ => false)
    (by norm_num)
    (by
      intro e he
      rw [List.mem_singleton] at he
      subst he
      rfl)
    (by
      intro i j hi hj hne
      simp only [List.length_cons, List.length_nil] at hi hj
      omega)
  have hft : (false = true) = False := by simp
  have heval : totalWords (populate_paragraphs [⟨0, [wdup]⟩, ⟨0, [wdup]⟩] []
      (some [pP]) false (fun _ => false) none (1/4)) = 1 := by
    norm_num only [hft, decide_True, decide_False, Bool.or_false, Bool.false_or,
      Bool.or_true, Bool.true_or, Bool.and_true, Bool.true_and, Bool.and_false,
      Bool.false_and, Bool.not_true, Bool.not_false, populate_paragraphs, pageCountP, pageCountOcr, wordLines, colsFor,
      processLine, processWord, append_word_to_paragraph, append_word_with_prev_word,
      append_word_anticipating, anticipateFind, no_columns_between,
      no_visual_elements_between, is_bbox_withinB, calculate_intersection_area, Bb.area,
      W.toBb, PElem.toBb, Bb.create, clampCoord, isParagraphKind, isExtraKind,
      insert_paragraphs_in_layout, insertOne, insertScan, insertAt,
      update_paragraph_bbox, merge_inferred_paragraphs, mergeOuter, mergeWhile,
      listIndex, removeFirst, match_interval, totalWords, wdup, pP,
      List.foldl_cons, List.foldl_nil, List.filter_cons, List.filter_nil,
      List.range_succ, List.range_zero, List.enum, List.enumFrom,
      List.map_cons, List.map_nil, List.sum_cons, List.sum_nil,
      List.getD_cons_zero, List.getD_cons_succ, List.set, List.take, List.drop,
      List.mem_cons, List.not_mem_nil, List.mem_singleton,
      List.cons_append, List.nil_append, List.append_nil, List.singleton_append,
      List.any_cons, List.any_nil, List.length_cons, List.length_nil,
      PElem.mk.injEq, W.mk.injEq, Col.mk.injEq, List.cons.injEq, Prod.mk.injEq,
      decide_eq_true_eq, Bool.and_eq_true, Bool.or_eq_true, Bool.not_eq_true,
      and_true, true_and, and_false, false_and, or_false, false_or, or_true, true_or,
      ite_true, ite_false, List.cons_ne_nil, ne_eq, not_false_iff, not_true,
      Nat.max_def, sup_eq_max, inf_eq_min, max_def, min_def]
  rw [heval] at h2
  norm_num [ocrWordCount] at h2

set_option maxHeartbeats 2000000 in
/-- C2 (amended): the lost word is exactly the value-duplicate case.  In
the counterexample's scenario with the two words given distinct contents,
both words survive: the second inferred paragraph is no longer value-equal
to the first, is inserted, and the merge pass concatenates the two into one
inferred paragraph holding both words — 2 words in, 2 words out. -/
theorem populate_word_conservation_distinct (c1 c2 : String) (hne : c1 ≠ c2) :
    totalWords (populate_paragraphs
      [⟨0, [⟨1/10, 1/2, 3/10, 3/5, c1⟩]⟩, ⟨0, [⟨1/10, 1/2, 3/10, 3/5, c2⟩]⟩] []
      (some [pP]) false (fun _ => false) none (1/4)) = 2 := by
  have hc : (c2 = c1) = False := eq_false (fun hh => hne hh.symm)
  have hft : (false = true) = False := by simp
  norm_num only [hc, hft, decide_True, decide_False, Bool.or_false, Bool.false_or,
    Bool.or_true, Bool.true_or, Bool.and_true, Bool.true_and, Bool.and_false,
    Bool.false_and, Bool.not_true, Bool.not_false, populate_paragraphs, pageCountP, pageCountOcr, wordLines, colsFor,
    processLine, processWord, append_word_to_paragraph, append_word_with_prev_word,
    append_word_anticipating, anticipateFind, no_columns_between,
    no_visual_elements_between, is_bbox_withinB, calculate_intersection_area, Bb.area,
    W.toBb, PElem.toBb, Bb.create, clampCoord, isParagraphKind, isExtraKind,
    insert_paragraphs_in_layout, insertOne, insertScan, insertAt,
    update_paragraph_bbox, merge_inferred_paragraphs, mergeOuter, mergeWhile,
    listIndex, removeFirst, match_interval, totalWords, pP,
    List.foldl_cons, List.foldl_nil, List.filter_cons, List.filter_nil,
    List.range_succ, List.range_zero, List.enum, List.enumFrom,
    List.map_cons, List.map_nil, List.sum_cons, List.sum_nil,
    List.getD_cons_zero, List.getD_cons_succ, List.set, List.take, List.drop,
    List.mem_cons, List.not_mem_nil, List.mem_singleton,
    List.cons_append, List.nil_append, List.append_nil, List.singleton_append,
    List.any_cons, List.any_nil, List.length_cons, List.length_nil,
    PElem.mk.injEq, W.mk.injEq, Col.mk.injEq, List.cons.injEq, Prod.mk.injEq,
    decide_eq_true_eq, Bool.and_eq_true, Bool.or_eq_true, Bool.not_eq_true,
    and_true, true_and, and_false, false_and, or_false, false_or, or_true, true_or,
    ite_true, ite_false, List.cons_ne_nil, ne_eq, not_false_iff, not_true,
    Nat.max_def, sup_eq_max, inf_eq_min, max_def, min_def]

/-- C2 (amended, witness): the distinct-contents run at contents "a" and
"b" keeps both words. -/
theorem populate_word_conservation_distinct_witness :
    totalWords (populate_paragraphs
      [⟨0, [⟨1/10, 1/2, 3/10, 3/5, "a"⟩]⟩, ⟨0, [⟨1/10, 1/2, 3/10, 3/5, "b"⟩]⟩] []
      (some [pP]) false (fun _ => false) none (1/4)) = 2 :=
  populate_word_conservation_distinct "a" "b" (by decide)

theorem append_word_to_paragraph_none (store : List PElem) (word : W) (thr : ℚ) :
    ∀ pageIds : List ℕ,
      (∀ i ∈ pageIds, isParagraphKind (store.getD i default).kind = true →
        is_bbox_withinB word.toBb (store.getD i default).toBb thr = false) →
      append_word_to_paragraph store pageIds word thr = none := by
  intro pageIds
  induction pageIds with
  | nil => intro _; rfl
  | cons i rest ih =>
    intro h
    rw [append_word_to_paragraph]
    rw [if_neg]
    · exact ih (fun j hj => h j (List.mem_cons_of_mem i hj))
    · intro hcond
      have hw := h i (List.mem_cons_self i rest) hcond.1
      rw [hcond.2] at hw
      cases hw

theorem anticipateFind_none (store : List PElem) (columns : List Col) (word nw : W)
    (thr : ℚ) (co : Bool) :
    ∀ pageIds : List ℕ,
      (∀ i ∈ pageIds, isParagraphKind (store.getD i default).kind = true →
        is_bbox_withinB nw.toBb (store.getD i default).toBb thr = false) →
      anticipateFind store pageIds columns word nw thr co = none := by
  intro pageIds
  induction pageIds with
  | nil => intro _; rfl
  | cons i rest ih =>
    intro h
    rw [anticipateFind]
    rw [if_neg]
    · exact ih (fun j hj => h j (List.mem_cons_of_mem i hj))
    · intro hcond
      have hw := h i (List.mem_cons_self i rest) hcond.1
      rw [hcond.2.1] at hw
      cases hw

theorem append_word_anticipating_none (store : List PElem) (pageIds : List ℕ)
    (columns : List Col) (word : W) (thr : ℚ) (co : Bool) :
    ∀ next_words : List W,
      (∀ nw ∈ next_words, ∀ i ∈ pageIds,
        isParagraphKind (store.getD i default).kind = true →
        is_bbox_withinB nw.toBb (store.getD i default).toBb thr = false) →
      append_word_anticipating store pageIds columns next_words word thr co = none := by
  intro next_words
  induction next_words with
  | nil => intro _; rfl
  | cons nw rest ih =>
    intro h
    rw [append_word_anticipating]
    rw [anticipateFind_none store columns word nw thr co pageIds
      (fun i hi => h nw (List.mem_cons_self nw rest) i hi)]
    exact ih (fun v hv => h v (List.mem_cons_of_mem nw hv))

def pA : PElem := ⟨.text, 0, 0, 23/50, 1/10, 0, false, []⟩

def pB : PElem := ⟨.text, 27/50, 0, 1, 1/10, 0, false, []⟩

def wmid : W := ⟨9/20, 1/50, 11/20, 2/25, "w"⟩

set_option maxHeartbeats 2000000 in
/-- C5: a word below the containment threshold in every page paragraph,
opening its line (`prev_element = None`) and with no word of the rest of
its line landing in a paragraph, becomes a fresh `inferred=True`
single-word `Text` paragraph carrying the word's (validated) bbox: the
store only grows, no existing element takes the word.  And concretely:
the word (0.45,0.02,0.55,0.08) overlapping paragraphs A (0,0,0.46,0.1) and
B (0.54,0,1,0.1) by exactly 10% each — below the pipeline's 0.25
threshold — comes out as a third, inferred, single-word paragraph, with A
and B left empty. -/
theorem populate_unmatched_word_becomes_inferred :
    (∀ (store : List PElem) (newParas : List ℕ) (pageIds : List ℕ) (columns : List Col)
      (line : List W) (n : ℕ) (word : W) (thr : ℚ) (look : Bool)
      (isChapter : String → Bool) (page : ℕ) (bb : Bb),
      (∀ nw ∈ line.drop n, ∀ i ∈ pageIds,
        isParagraphKind (store.getD i default).kind = true →
        is_bbox_withinB nw.toBb (store.getD i default).toBb thr = false) →
      (∀ i ∈ pageIds, isParagraphKind (store.getD i default).kind = true →
        is_bbox_withinB word.toBb (store.getD i default).toBb thr = false) →
      Bb.create word.x0 word.x1 word.y0 word.y1 = some bb →
      processWord store newParas none pageIds columns line n word thr look isChapter page
        = (store ++ [⟨.text, bb.x0, bb.y0, bb.x1, bb.y1, page, true, [word]⟩],
          newParas ++ [store.length], some store.length)) ∧
    populate_paragraphs [⟨0, [wmid]⟩] [] (some [pA, pB]) false (fun _ => false) none (1/4)
      = [pA, pB, ⟨.text, 9/20, 1/50, 11/20, 2/25, 0, true, [wmid]⟩] := by
  constructor
  · intro store newParas pageIds columns line n word thr look isChapter page bb
      hnext hword hbb
    rw [processWord]
    rw [append_word_to_paragraph_none store word thr pageIds hword]
    rw [show append_word_with_prev_word store columns line word n none = none from rfl]
    rw [append_word_anticipating_none store pageIds columns word thr
      (look && isChapter word.content) (line.drop n) hnext]
    rw [hbb]
  · have hft : (false = true) = False := by simp
    norm_num only [hft, decide_True, decide_False, Bool.or_false, Bool.false_or,
      Bool.or_true, Bool.true_or, Bool.and_true, Bool.true_and, Bool.and_false,
      Bool.false_and, Bool.not_true, Bool.not_false,
      populate_paragraphs, pageCountP, pageCountOcr, wordLines, colsFor,
      processLine, processWord, append_word_to_paragraph, append_word_with_prev_word,
      append_word_anticipating, anticipateFind, no_columns_between,
      no_visual_elements_between, is_bbox_withinB, calculate_intersection_area, Bb.area,
      W.toBb, PElem.toBb, Bb.create, clampCoord, isParagraphKind, isExtraKind,
      insert_paragraphs_in_layout, insertOne, insertScan, insertAt,
      update_paragraph_bbox, merge_inferred_paragraphs, mergeOuter, mergeWhile,
      listIndex, removeFirst, match_interval, pA, pB, wmid,
      List.foldl_cons, List.foldl_nil, List.filter_cons, List.filter_nil,
      List.range_succ, List.range_zero, List.enum, List.enumFrom,
      List.map_cons, List.map_nil, List.sum_cons, List.sum_nil,
      List.getD_cons_zero, List.getD_cons_succ, List.set, List.take, List.drop,
      List.mem_cons, List.not_mem_nil, List.mem_singleton,
      List.cons_append, List.nil_append, List.append_nil, List.singleton_append,
      List.any_cons, List.any_nil, List.length_cons, List.length_nil,
      PElem.mk.injEq, W.mk.injEq, Col.mk.injEq, List.cons.injEq, Prod.mk.injEq,
      decide_eq_true_eq, Bool.and_eq_true, Bool.or_eq_true, Bool.not_eq_true,
      and_true, true_and, and_false, false_and, or_false, false_or, or_true, true_or,
      ite_true, ite_false, List.cons_ne_nil, ne_eq, not_false_iff, not_true,
      Nat.max_def, sup_eq_max, inf_eq_min, max_def, min_def]

/-- C5 (witness): the general branch applied to the one-paragraph page of
`pP` and the far-away word `wdup`: every branch fails and the inferred
paragraph is created at the next store index. -/
theorem populate_unmatched_word_becomes_inferred_witness :
    processWord [pP] [] none [0] [] [wdup] 0 wdup (1/4) false (fun _ => false) 0
      = ([pP] ++ [⟨.text, 1/10, 1/2, 3/10, 3/5, 0, true, [wdup]⟩], [] ++ [1], some 1) := by
  have h := populate_unmatched_word_becomes_inferred.1 [pP] [] [0] [] [wdup] 0 wdup
    (1/4) false (fun _ => false) 0 ⟨1/10, 1/2, 3/10, 3/5⟩
    (by
      intro nw hnw i hi _
      rw [List.drop_zero, List.mem_singleton] at hnw
      rw [List.mem_singleton] at hi
      subst hnw
      subst hi
      norm_num [is_bbox_withinB, calculate_intersection_area, Bb.area, W.toBb,
        PElem.toBb, wdup, pP])
    (by
      intro i hi _
      rw [List.mem_singleton] at hi
      subst hi
      norm_num [is_bbox_withinB, calculate_intersection_area, Bb.area, W.toBb,
        PElem.toBb, wdup, pP])
    (by norm_num [Bb.create, clampCoord, wdup])
  simpa using h

end DocParsing
